import Mathlib

/-!
Verification of the minissg markdown-to-HTML compiler core (src/main.rs):
a shallow embedding of its two-stage parser (block segmentation, inline
formatting) and of its renderer, with theorems about the behaviour of the
embedded functions.

Conventions of the embedding:
* Rust strings are modelled at the character level (`String` / `List Char`);
  byte offsets of the original become character positions.
* Rust regexes are replaced by equivalent deterministic matchers, written out
  below next to the regex they implement.  The character class `\s` of the
  regex crate (Unicode White_Space) is `isRegexSpace`; `\d` (Unicode decimal
  digit) is modelled as the ASCII digits `Char.isDigit`, which is the only
  case exercised here and the only one `u32::from_str` would accept anyway.
* Code that can panic (`unwrap` on a fallible parse) returns `Option`:
  `none` models a panic of the original program.
* Loops whose step is not structurally decreasing take an explicit fuel
  argument that the entry point instantiates with a bound that can never be
  exhausted (each iteration consumes at least one element).
* The two external subprocesses of the math pipeline (latex, dvisvgm) are
  modelled by an oracle `ExtWorld` giving, as a function of the `.tex`
  content the program writes, the exit status and captured output of each
  command.
-/

namespace Minissg

/-- Unicode White_Space, the set matched by `\s` in the Rust regex crate and
by `char::is_whitespace` (used by `str::trim`). -/
def isRegexSpace (c : Char) : Bool :=
  c = ' ' || c = '\t' || c = '\n' || c = '\r' || c = '\x0b' || c = '\x0c' ||
  c = '\u0085' || c = '\u00a0' || c = '\u1680' ||
  (0x2000 ≤ c.toNat && c.toNat ≤ 0x200a) ||
  c = '\u2028' || c = '\u2029' || c = '\u202f' || c = '\u205f' || c = '\u3000'

/-- The characters that are special to the inline formatter `parse_text`
(the arms of its `match c`): escape, bold, italic, math, code delimiters. -/
def specials : List Char := ['\\', '*', '_', '$', '\x60']

/-- TextFormat enum of main.rs (line 5). -/
inductive TextFormat where
  | Raw
  | Plain
  | Bold
  | Italic
  | InlineMath
  | InlineCode
  | FootnoteRef
  | Link (url : String)
deriving DecidableEq, Repr

/-- Text struct of main.rs (line 17): one styled run. -/
structure Text where
  src : String
  fmt : TextFormat
deriving DecidableEq, Repr

/-- ListItem struct of main.rs (line 23). -/
structure ListItem where
  level : Nat
  content : List Text
deriving DecidableEq, Repr

/-- Block enum of main.rs (line 30). -/
inductive Block where
  | Paragraph (ts : List Text)
  | Header (level : Nat) (src : String)
  | Code (language : String) (src : String)
  | Math (src : String)
  | Image (alt : String) (url : String) (width : Nat)
  | Html (src : String)
  | Quote (src : String)
  | Footnote (id : String) (ts : List Text)
  | List (is_ordered : Bool) (items : List ListItem)
deriving DecidableEq, Repr

/-- CompilerConfig of main.rs (line 43), restricted to the fields the core
reads (paths are kept as plain strings). -/
structure CompilerConfig where
  images_dir : String
  post_template : String
  math_template : String

/-- Oracle for the two external commands invoked by `render_math_to_svg`,
as functions of the `.tex` file content the program writes:
`latexOk c` is whether `latex` exits successfully, `latexStdout c` its
captured standard output, `dviOk c` whether the `math.dvi` artifact exists
afterwards, `dvisvgmStdout c` the standard output of `dvisvgm`, and
`dviPathStr` the Debug rendering of the temp-directory DVI path that the
missing-artifact error message interpolates. -/
structure ExtWorld where
  latexOk : String → Bool
  latexStdout : String → String
  dviOk : String → Bool
  dvisvgmStdout : String → String
  dviPathStr : String

/-! ## Inline formatter (`parse_text`, `push_fmted_text`, lines 345-449) -/

/-- Match the regex `\[([^\]]+)\]\(([^)]+)\)` anchored at the head of `cs`;
returns (link text, url, rest after the match).  The greedy classes make the
match at a fixed position deterministic: `[^\]]+` must be the maximal run of
non-`]` characters (a shorter run cannot be followed by `]`). -/
def matchLinkAt : List Char → Option (String × String × List Char)
  | '[' :: rest =>
    let ltxt := rest.takeWhile (fun c => c ≠ ']')
    if ltxt = [] then none else
    match rest.dropWhile (fun c => c ≠ ']') with
    | ']' :: '(' :: rest2 =>
      let url := rest2.takeWhile (fun c => c ≠ ')')
      if url = [] then none else
      (match rest2.dropWhile (fun c => c ≠ ')') with
       | ')' :: post => some (⟨ltxt⟩, ⟨url⟩, post)
       | _ => none)
    | _ => none
  | _ => none

/-- `link_regex.find` / `.captures` (leftmost match anywhere in the buffer):
returns (text before the match, link text, url, text after the match). -/
def findLink : List Char → Option (List Char × String × String × List Char)
  | [] => none
  | c :: cs =>
    match matchLinkAt (c :: cs) with
    | some (t, u, post) => some ([], t, u, post)
    | none =>
      match findLink cs with
      | some (pre, t, u, post) => some (c :: pre, t, u, post)
      | none => none

/-- Match the regex `\[\^(\d+)\]` anchored at the head of `cs`;
returns (digits, rest after the match). -/
def matchFootnoteAt : List Char → Option (String × List Char)
  | '[' :: '^' :: rest =>
    let ds := rest.takeWhile Char.isDigit
    if ds = [] then none else
    match rest.dropWhile Char.isDigit with
    | ']' :: post => some (⟨ds⟩, post)
    | _ => none
  | _ => none

/-- `footnote_regex.find` / `.captures` (leftmost match in the buffer):
returns (text before the match, digits, text after the match). -/
def findFootnoteRef : List Char → Option (List Char × String × List Char)
  | [] => none
  | c :: cs =>
    match matchFootnoteAt (c :: cs) with
    | some (d, post) => some ([], d, post)
    | none =>
      match findFootnoteRef cs with
      | some (pre, d, post) => some (c :: pre, d, post)
      | none => none

/-- The final statement of `push_fmted_text` (line 447):
`*fmt_c = if *fmt_c == fmt_new { Plain } else { fmt_new }`. -/
def toggle (fc fn : TextFormat) : TextFormat :=
  if fc = fn then TextFormat.Plain else fn

/-- Body of `push_fmted_text` (main.rs lines 392-449) over the buffer's
characters, with fuel for the recursion on the remainder after a link or
footnote match (the remainder is at least four characters shorter, so the
entry point's fuel is never exhausted).  Returns the runs appended to
`texts`, the new value of `fmt_c`, and the new content of `s_buf`: note that
on the recursive path (line 419 / 442) the original function returns early
WITHOUT clearing the caller's `s_buf`, which the last component records. -/
def pushFmtedGo : Nat → List Char → TextFormat → TextFormat →
    List Text × TextFormat × List Char
  | 0, cs, fc, _ => ([], fc, cs)
  | fuel + 1, cs, fc, fn =>
    if cs = [] then ([], fc, cs)
    else if fn = TextFormat.Plain then
      match findLink cs with
      | some (pre, ltxt, url, post) =>
        let preTs : List Text := if pre = [] then [] else [Text.mk ⟨pre⟩ fc]
        if post = [] then
          (preTs ++ [Text.mk ltxt (TextFormat.Link url)], toggle fc fn, [])
        else
          let r := pushFmtedGo fuel post fc fn
          (preTs ++ Text.mk ltxt (TextFormat.Link url) :: r.1, r.2.1, cs)
      | none =>
        match findFootnoteRef cs with
        | some (pre, d, post) =>
          let preTs : List Text := if pre = [] then [] else [Text.mk ⟨pre⟩ fc]
          if post = [] then
            (preTs ++ [Text.mk d TextFormat.FootnoteRef], toggle fc fn, [])
          else
            let r := pushFmtedGo fuel post fc fn
            (preTs ++ Text.mk d TextFormat.FootnoteRef :: r.1, r.2.1, cs)
        | none => ([Text.mk ⟨cs⟩ fc], toggle fc fn, [])
    else ([Text.mk ⟨cs⟩ fc], toggle fc fn, [])

/-- `push_fmted_text` of main.rs (line 392): flushes the buffer `cs` under
current style `fc` toward new style `fn`.  When the buffer is empty it
returns immediately (no run pushed, `fmt_c` NOT toggled). -/
def push_fmted_text (cs : List Char) (fc fn : TextFormat) :
    List Text × TextFormat × List Char :=
  pushFmtedGo (cs.length + 1) cs fc fn

/-- The character loop of `parse_text` (main.rs lines 353-384):
arguments are the remaining characters, `s_buf`, `texts`, `escaped`,
`fmt`, `in_literal_mode`; at the end of input the final flush of line 385-386
is applied. -/
def parse_text_go : List Char → List Char → List Text → Bool → TextFormat →
    Bool → List Text
  | [], sbuf, texts, _, fmt, _ =>
    texts ++ (push_fmted_text sbuf fmt fmt).1
  | c :: cs, sbuf, texts, escaped, fmt, lit =>
    if escaped then
      parse_text_go cs (sbuf ++ [c]) texts false fmt lit
    else if lit then
      if c = '$' ∧ fmt = TextFormat.InlineMath then
        let r := push_fmted_text sbuf fmt TextFormat.Plain
        parse_text_go cs r.2.2 (texts ++ r.1) false r.2.1 false
      else if c = '\x60' ∧ fmt = TextFormat.InlineCode then
        let r := push_fmted_text sbuf fmt TextFormat.Plain
        parse_text_go cs r.2.2 (texts ++ r.1) false r.2.1 false
      else
        parse_text_go cs (sbuf ++ [c]) texts false fmt lit
    else if c = '\\' then
      parse_text_go cs sbuf texts true fmt lit
    else if c = '*' then
      let r := push_fmted_text sbuf fmt TextFormat.Bold
      parse_text_go cs r.2.2 (texts ++ r.1) false r.2.1 lit
    else if c = '_' then
      let r := push_fmted_text sbuf fmt TextFormat.Italic
      parse_text_go cs r.2.2 (texts ++ r.1) false r.2.1 lit
    else if c = '$' then
      let r := push_fmted_text sbuf fmt TextFormat.InlineMath
      parse_text_go cs r.2.2 (texts ++ r.1) false r.2.1 (!lit)
    else if c = '\x60' then
      let r := push_fmted_text sbuf fmt TextFormat.InlineCode
      parse_text_go cs r.2.2 (texts ++ r.1) false r.2.1 (!lit)
    else
      parse_text_go cs (sbuf ++ [c]) texts false fmt lit

/-- `parse_text` of main.rs (line 345): the inline formatter. -/
def parse_text (s : String) : List Text :=
  parse_text_go s.data [] [] false TextFormat.Plain false

/-! ## Block segmenter (`parse_blocks` and helpers, lines 143-321) -/

/-- `str::starts_with` on strings (byte prefix = character-list prefix). -/
def strStarts (s p : String) : Bool :=
  p.data.isPrefixOf s.data

/-- `line.trim().is_empty()`: every character is Unicode whitespace. -/
def rustBlank (s : String) : Bool :=
  s.data.all isRegexSpace

/-- `str::trim` (strip Unicode whitespace at both ends), on characters. -/
def rustTrim (cs : List Char) : List Char :=
  ((cs.dropWhile isRegexSpace).reverse.dropWhile isRegexSpace).reverse

/-- The code-block / math-block inner loops (lines 177-181, 188-192):
consume lines until one satisfying `p` (which is consumed and dropped) or
end of input, accumulating each consumed line followed by a newline.
Returns (accumulated text, remaining lines). -/
def consumeUntil (p : String → Bool) : List String → String × List String
  | [] => ("", [])
  | l :: ls =>
    if p l then ("", ls)
    else
      let r := consumeUntil p ls
      (l ++ "\n" ++ r.1, r.2)

/-- The comment inner loop (lines 212-216): drop lines until one satisfying
`p` (also dropped) or end of input. -/
def skipUntil (p : String → Bool) : List String → List String
  | [] => []
  | l :: ls => if p l then ls else skipUntil p ls

/-- The raw-html inner loop (lines 222-227): accumulate lines with no
separator until a `</html>` line (consumed and dropped) or end of input. -/
def consumeHtml : List String → String × List String
  | [] => ("", [])
  | l :: ls =>
    if strStarts l "</html>" then ("", ls)
    else
      let r := consumeHtml ls
      (l ++ r.1, r.2)

/-- `captures_ol_li` of main.rs (line 301): matcher for the anchored regex
`^( *)([^\s.]+)\.\s+(.*)`.  Greediness makes it deterministic: the label is
the maximal run of non-whitespace non-dot characters after the maximal run
of leading spaces, the character after it must be `.`, at least one
whitespace character must follow, and the content capture is the rest up to
the first newline (`.` does not match a newline). -/
def captures_ol_li (line : String) : Option ListItem :=
  let cs := line.data
  let sp := cs.takeWhile (fun c => c = ' ')
  let rest := cs.dropWhile (fun c => c = ' ')
  let lbl := rest.takeWhile (fun c => !isRegexSpace c && c ≠ '.')
  if lbl = [] then none else
  match rest.dropWhile (fun c => !isRegexSpace c && c ≠ '.') with
  | '.' :: rest2 =>
    let ws := rest2.takeWhile isRegexSpace
    if ws = [] then none else
    some ⟨sp.length / 4,
      parse_text ⟨(rest2.dropWhile isRegexSpace).takeWhile (fun c => c ≠ '\n')⟩⟩
  | _ => none

/-- `captures_ul_li` of main.rs (line 312): matcher for the anchored regex
`^( *)[-*]\s+(.*)`. -/
def captures_ul_li (line : String) : Option ListItem :=
  let cs := line.data
  let sp := cs.takeWhile (fun c => c = ' ')
  match cs.dropWhile (fun c => c = ' ') with
  | m :: rest =>
    if m = '-' || m = '*' then
      let ws := rest.takeWhile isRegexSpace
      if ws = [] then none else
      some ⟨sp.length / 4,
        parse_text ⟨(rest.dropWhile isRegexSpace).takeWhile (fun c => c ≠ '\n')⟩⟩
    else none
  | [] => none

/-- The ordered-list inner loop (lines 254-262): consume lines while either
item pattern matches, trying the ordered pattern first; the first line
matching neither is consumed and DROPPED.  Returns (items, remaining). -/
def scanOlItems : List String → List ListItem × List String
  | [] => ([], [])
  | l :: ls =>
    match captures_ol_li l with
    | some it =>
      let r := scanOlItems ls
      (it :: r.1, r.2)
    | none =>
      match captures_ul_li l with
      | some it =>
        let r := scanOlItems ls
        (it :: r.1, r.2)
      | none => ([], ls)

/-- The unordered-list inner loop (lines 271-279): same, trying the
unordered pattern first. -/
def scanUlItems : List String → List ListItem × List String
  | [] => ([], [])
  | l :: ls =>
    match captures_ul_li l with
    | some it =>
      let r := scanUlItems ls
      (it :: r.1, r.2)
    | none =>
      match captures_ol_li l with
      | some it =>
        let r := scanUlItems ls
        (it :: r.1, r.2)
      | none => ([], ls)

/-- Matcher for the image regex `!\[([^\]]*)\]\(([^)]+)\)(?:\{(\d+)\})?`
anchored at the head: (alt, url, optional width digits, the optional group
matching empty when no well-formed `{digits}` follows). -/
def matchImageAt : List Char → Option (String × String × Option String)
  | '!' :: '[' :: rest =>
    let alt := rest.takeWhile (fun c => c ≠ ']')
    match rest.dropWhile (fun c => c ≠ ']') with
    | ']' :: '(' :: rest2 =>
      let url := rest2.takeWhile (fun c => c ≠ ')')
      if url = [] then none else
      (match rest2.dropWhile (fun c => c ≠ ')') with
       | ')' :: rest3 =>
         match rest3 with
         | '{' :: rest4 =>
           let ds := rest4.takeWhile Char.isDigit
           (match ds, rest4.dropWhile Char.isDigit with
            | _ :: _, '}' :: _ => some (⟨alt⟩, ⟨url⟩, some ⟨ds⟩)
            | _, _ => some (⟨alt⟩, ⟨url⟩, none))
         | _ => some (⟨alt⟩, ⟨url⟩, none)
       | _ => none)
    | _ => none
  | _ => none

/-- `image_regex.captures(line)` (line 199): leftmost match anywhere. -/
def imageCaptures : List Char → Option (String × String × Option String)
  | [] => none
  | c :: cs =>
    match matchImageAt (c :: cs) with
    | some r => some r
    | none => imageCaptures cs

/-- Numeric value of a digit string (most significant first). -/
def digitsVal (ds : List Char) : Nat :=
  ds.foldl (fun a c => a * 10 + (c.toNat - '0'.toNat)) 0

/-- `str::parse::<u32>()` on a digit string: fails (Rust: `Err`, whose
`unwrap` panics) when empty, non-digit, or the value overflows u32. -/
def parseU32 (s : String) : Option Nat :=
  if s.data ≠ [] ∧ s.data.all Char.isDigit ∧ digitsVal s.data < 4294967296 then
    some (digitsVal s.data)
  else none

/-- Matcher for the footnote-definition regex `^\[\^(\d+)\]:\s*(.*)`
(line 239): (id digits, contents after optional whitespace, up to the first
newline). -/
def footnoteDefCaptures (cs : List Char) : Option (String × String) :=
  match cs with
  | '[' :: '^' :: rest =>
    let ds := rest.takeWhile Char.isDigit
    if ds = [] then none else
    (match rest.dropWhile Char.isDigit with
     | ']' :: ':' :: rest2 =>
       some (⟨ds⟩, ⟨(rest2.dropWhile isRegexSpace).takeWhile (fun c => c ≠ '\n')⟩)
     | _ => none)
  | _ => none

/-- The image branch of the dispatch (lines 198-208): the blocks it
appends, or `none` when the original panics (the `unwrap` on the width
parse, line 204). -/
def imageBranch (l : String) : Option (List Block) :=
  match imageCaptures l.data with
  | some (alt, url, some ws) =>
    (match parseU32 ws with
     | some w => some [Block.Image alt url w]
     | none => none)
  | some (alt, url, none) => some [Block.Image alt url 100]
  | none => some []

/-- The footnote-definition branch (lines 238-249): the blocks it appends
(none when the detailed pattern fails). -/
def footnoteBranch (l : String) : List Block :=
  match footnoteDefCaptures l.data with
  | some (fid, contents) => [Block.Footnote fid [Text.mk contents TextFormat.Raw]]
  | none => []

/-- The two list branches (lines 251-283): when either item pattern matches
the fresh line, the produced block and the lines remaining after the inner
scan; `none` when the line is not a list item. -/
def listBranch (l : String) (ls : List String) :
    Option (List Block × List String) :=
  match captures_ol_li l with
  | some li0 =>
    let r := scanOlItems ls
    some ([Block.List true (li0 :: r.1)], r.2)
  | none =>
    match captures_ul_li l with
    | some li0 =>
      let r := scanUlItems ls
      some ([Block.List false (li0 :: r.1)], r.2)
    | none => none

/-- One iteration of the line loop of `parse_blocks` (main.rs lines
150-290) on the line `l`, with the loop's continuation abstracted as `go`
(the remaining lines, blocks, `text_buf` and `is_new_block` it passes are
exactly the state the original's next iteration sees).  `none` is the panic
of the image branch. -/
def parseBlocksStep (go : List String → List Block → String → Bool →
      Option (List Block))
    (l : String) (ls : List String) (blocks : List Block) (buf : String)
    (isNew : Bool) : Option (List Block) :=
  if rustBlank l then
    go ls
      (if buf = "" then blocks
       else blocks ++ [Block.Paragraph [Text.mk buf TextFormat.Raw]]) "" true
  else if !isNew then
    go ls blocks (buf ++ l ++ " ") false
  else if strStarts l "#" then
    let level := (l.data.takeWhile (fun c => c = '#')).length
    go ls (blocks ++ [Block.Header level ⟨rustTrim (l.data.drop level)⟩]) buf false
  else if strStarts l "```" then
    let language : String := ⟨rustTrim (l.data.drop 3)⟩
    let r := consumeUntil (fun x => strStarts x "```") ls
    go r.2 (blocks ++ [Block.Code language (buf ++ r.1)]) "" false
  else if strStarts l "\\[" then
    let r := consumeUntil (fun x => strStarts x "\\]") ls
    go r.2 (blocks ++ [Block.Math (buf ++ r.1)]) "" false
  else if strStarts l "![" then
    match imageBranch l with
    | some bs => go ls (blocks ++ bs) buf false
    | none => none
  else if strStarts l "<!--" then
    go (skipUntil (fun x => strStarts x "-->") ls) blocks buf false
  else if strStarts l "<html>" then
    let r := consumeHtml ls
    go r.2 (blocks ++ [Block.Html r.1]) buf false
  else if strStarts l ">> " then
    go ls (blocks ++ [Block.Quote ⟨rustTrim (l.data.drop 3)⟩]) buf false
  else if strStarts l "[^" then
    go ls (blocks ++ footnoteBranch l) buf false
  else
    match listBranch l ls with
    | some (bs, rest) => go rest (blocks ++ bs) buf false
    | none => go ls blocks (buf ++ l ++ " ") false

/-- The line loop of `parse_blocks` (main.rs lines 149-298).  Arguments:
fuel (strictly more than the number of remaining lines at the entry point;
each iteration consumes at least one line, so the `0` case is unreachable
from the entry point), remaining lines, accumulated `blocks`, `text_buf`,
`is_new_block`.  At end of input a nonempty buffer is flushed as a final
Paragraph (lines 293-297).  Returns `none` exactly when the original
panics. -/
def parseBlocksGo : Nat → List String → List Block → String → Bool →
    Option (List Block)
  | _, [], blocks, buf, _ =>
    some (if buf = "" then blocks
          else blocks ++ [Block.Paragraph [Text.mk buf TextFormat.Raw]])
  | 0, _ :: _, _, _, _ => none
  | fuel + 1, l :: ls, blocks, buf, isNew =>
    parseBlocksStep (fun ls' blocks' buf' isNew' =>
      parseBlocksGo fuel ls' blocks' buf' isNew') l ls blocks buf isNew

/-- `parse_blocks` on a list of lines, with adequate fuel. -/
def parseBlocksLines (lines : List String) : Option (List Block) :=
  parseBlocksGo (lines.length + 1) lines [] "" true

/-- `str::lines`: split at `\n`, strip one `\r` before each `\n`, no final
empty line when the input ends with `\n`.  `acc` holds the current line's
characters in reverse. -/
def rustLinesGo : List Char → List Char → List String
  | [], [] => []
  | [], acc => [⟨acc.reverse⟩]
  | '\n' :: cs, acc =>
    (⟨(match acc with | '\r' :: a => a | a => a).reverse⟩ : String) :: rustLinesGo cs []
  | c :: cs, acc => rustLinesGo cs (c :: acc)

/-- `input.lines()` of Rust on a whole document. -/
def rustLines (s : String) : List String :=
  rustLinesGo s.data []

/-- `parse_blocks` of main.rs (line 143). -/
def parse_blocks (input : String) : Option (List Block) :=
  parseBlocksLines (rustLines input)

/-- `parse_inner` of main.rs (line 324): inline-format the first raw run of
paragraphs and footnotes (any further runs are discarded, as in the
original, which rebuilds the block from `ts.first()` alone). -/
def parse_inner : Block → Block
  | Block.Paragraph ts =>
    match ts with
    | t :: _ => Block.Paragraph (parse_text t.src)
    | [] => Block.Paragraph []
  | Block.Footnote fid ts =>
    match ts with
    | t :: _ => Block.Footnote fid (parse_text t.src)
    | [] => Block.Footnote fid []
  | b => b

/-- `parse` of main.rs (line 134). -/
def parse (input : String) : Option (List Block) :=
  (parse_blocks input).map (List.map parse_inner)

/-! ## Renderer (lines 455-633) -/

/-- `String::replace(pat, repl)` (all non-overlapping occurrences, left to
right), with fuel: each step consumes at least one character, so the entry
point's fuel `s.length` is never exhausted. -/
def replaceAllGo (pat repl : List Char) : Nat → List Char → List Char
  | _, [] => []
  | 0, s => s
  | fuel + 1, c :: cs =>
    if pat ≠ [] ∧ pat.isPrefixOf (c :: cs) then
      repl ++ replaceAllGo pat repl fuel ((c :: cs).drop pat.length)
    else c :: replaceAllGo pat repl fuel cs

/-- `String::replace` on strings. -/
def strReplace (s pat repl : String) : String :=
  ⟨replaceAllGo pat.data repl.data s.data.length s.data⟩

/-- Concatenation of a list of strings, in order: Rust's
`collect::<String>()` over an iterator of strings. -/
def sjoin : List String → String
  | [] => ""
  | s :: r => s ++ sjoin r

/-- The `.tex` document content `render_math_to_svg` writes (main.rs lines
597-601): the fragment wrapped for display or inline mode, substituted into
the math template at `{{content}}`. -/
def math_latex_content (math : String) (cfg : CompilerConfig)
    (is_display : Bool) : String :=
  strReplace cfg.math_template "{{content}}"
    (if is_display then "\\[" ++ math ++ "\\]" else "$" ++ math ++ "$")

/-- `render_math_to_svg` of main.rs (line 592), with the two subprocesses
abstracted by the `ExtWorld` oracle: on a non-zero latex exit, an error
carrying the captured stdout; on a missing DVI artifact, a missing-artifact
error (whose message interpolates the Debug form of the temp path); else the
stdout of dvisvgm (regardless of dvisvgm's own exit status). -/
def render_math_to_svg (math : String) (cfg : CompilerConfig)
    (is_display : Bool) (w : ExtWorld) : Except String String :=
  let latex_content := math_latex_content math cfg is_display
  if !(w.latexOk latex_content) then
    Except.error ("LaTeX failed: " ++ w.latexStdout latex_content)
  else if !(w.dviOk latex_content) then
    Except.error ("DVI file not found at " ++ w.dviPathStr)
  else
    Except.ok (w.dvisvgmStdout latex_content)

/-- `PathBuf::join` of `cfg.images_dir.join(url)` (line 523): an absolute
`url` replaces the base path. -/
def pathJoin (dir url : String) : String :=
  if strStarts url "/" then url
  else if strStarts (⟨dir.data.reverse⟩ : String) "/" then dir ++ url
  else dir ++ "/" ++ url

/-- `Text::render` of main.rs (line 459). -/
def Text.render (t : Text) (cfg : CompilerConfig) (w : ExtWorld) : String :=
  match t.fmt with
  | TextFormat.Plain => t.src
  | TextFormat.Bold => "<span class=\"bold\"> " ++ t.src ++ " </span>"
  | TextFormat.Italic => "<span class=\"italic\"> " ++ t.src ++ " </span>"
  | TextFormat.InlineMath =>
    let svg :=
      match render_math_to_svg t.src cfg false w with
      | Except.ok s => s
      | Except.error e => "<code class='latex-error'>" ++ e ++ "</code>"
    "<span class=\"inline-math\">" ++ svg ++ "</span>"
  | TextFormat.InlineCode => " <span class=\"inline-code\">" ++ t.src ++ "</span>"
  | TextFormat.Link url => "<a href=\"" ++ url ++ "\">" ++ t.src ++ "</a>"
  | TextFormat.FootnoteRef =>
    "<sup id=\"ref" ++ t.src ++ "\"><a href=\"#fn" ++ t.src ++ "\">[" ++
      t.src ++ "]</a></sup>"
  | _ => t.src

/-- The rendered content of one list item (line 553): the concatenation of
its runs' renderings. -/
def itemInner (it : ListItem) (cfg : CompilerConfig) (w : ExtWorld) : String :=
  sjoin (it.content.map (fun t => Text.render t cfg w))

/-- The item loop of `Block::render` for lists (main.rs lines 552-576):
arguments are the remaining items, `current_level`, and the enumeration
index `i`; returns the emitted text and the final value of `current_level`. -/
def renderListGo (tag : String) (cfg : CompilerConfig) (w : ExtWorld) :
    List ListItem → Nat → Nat → String × Nat
  | [], currentLevel, _ => ("", currentLevel)
  | item :: rest, currentLevel, i =>
    let adjust : String :=
      if currentLevel < item.level then
        sjoin (List.replicate (item.level - currentLevel) ("<" ++ tag ++ ">"))
      else if item.level < currentLevel then
        "</li>" ++
          sjoin (List.replicate (currentLevel - item.level)
            ("</" ++ tag ++ ">" ++ "</li>"))
      else if 0 < i then "</li>" else ""
    let r := renderListGo tag cfg w rest item.level (i + 1)
    (adjust ++ "<li>" ++ itemInner item cfg w ++ r.1, r.2)

/-- The `Block::List` arm of `Block::render` (main.rs lines 544-587):
open the root list element, run the item loop from `current_level = 0`,
then close the last item, one list element and one item element per
remaining level, and the root element. -/
def renderList (is_ordered : Bool) (items : List ListItem)
    (cfg : CompilerConfig) (w : ExtWorld) : String :=
  let tag := if is_ordered then "ol" else "ul"
  let r := renderListGo tag cfg w items 0 0
  "<" ++ tag ++ ">" ++ r.1 ++ "</li>" ++
    sjoin (List.replicate r.2 ("</" ++ tag ++ ">" ++ "</li>")) ++
    "</" ++ tag ++ ">"

/-- `Block::render` of main.rs (line 498). -/
def Block.render (b : Block) (cfg : CompilerConfig) (w : ExtWorld) : String :=
  match b with
  | Block.Paragraph chunks =>
    "<p>" ++ sjoin (chunks.map (fun t => Text.render t cfg w)) ++ "</p>\n"
  | Block.Header level src =>
    let tag := if level = 1 then "h1" else "h2"
    let s := "<" ++ tag ++ ">" ++ src ++ "</" ++ tag ++ ">\n"
    if tag = "h1" then s ++ "<hr><br>" else s
  | Block.Math s =>
    let svg :=
      match render_math_to_svg s cfg false w with
      | Except.ok v => v
      | Except.error e => "<code class='latex-error'>" ++ e ++ "</code>"
    "<span class=\"display-math\">" ++ svg ++ "</span>"
  | Block.Code lang src =>
    "<pre><code class=\"code-" ++ lang ++ "\">" ++ src ++ "</code></pre>"
  | Block.Image alt url width =>
    let path_str := pathJoin cfg.images_dir url
    if width = 100 then
      "<img src=\"" ++ path_str ++ "\" alt=\"" ++ alt ++ "\" class=\"image\">"
    else
      "<img src=\"" ++ path_str ++ "\" alt=\"" ++ alt ++
        "\" class=\"image\" style=\"width: " ++ toString width ++ "%;\">"
  | Block.Html src => src
  | Block.Quote src => "<p class=quote>" ++ src ++ "</p>\n"
  | Block.Footnote fid chunks =>
    "<p id=\"fn" ++ fid ++ "\"><a href=\"#ref" ++ fid ++ "\">[" ++ fid ++
      "]</a> " ++ sjoin (chunks.map (fun t => Text.render t cfg w)) ++ "</p>"
  | Block.List is_ordered items => renderList is_ordered items cfg w

/-- `render_document` of main.rs (line 455): concatenation of the blocks'
renderings, in order. -/
def render_document : List Block → CompilerConfig → ExtWorld → String
  | [], _, _ => ""
  | b :: bs, cfg, w => Block.render b cfg w ++ render_document bs cfg w

/-! ## Proof-layer definitions

None of the following is part of the embedding: they are observation
functions (substring counting), a segment-level decomposition of the list
renderer's output proven equal to it below, side conditions used by the
theorems, and concrete fixtures for witnesses and counterexamples. -/

/-- Number of positions of `s` at which `p` occurs (as a character
substring). -/
def countOcc (p : List Char) : List Char → Nat
  | [] => 0
  | c :: cs => (if p.isPrefixOf (c :: cs) then 1 else 0) + countOcc p cs

/-- Occurrence count of `p` inside `s`, on strings. -/
def countOccStr (p s : String) : Nat :=
  countOcc p.data s.data

/-- Number of elements of `segs` equal to `p`. -/
def countSeg (p : String) : List String → Nat
  | [] => 0
  | s :: r => (if s = p then 1 else 0) + countSeg p r

/-- The opening list tag emitted by `Block::render` for a list. -/
def openTagTok (is_ordered : Bool) : String :=
  if is_ordered then "<ol>" else "<ul>"

/-- The closing list tag emitted by `Block::render` for a list. -/
def closeTagTok (is_ordered : Bool) : String :=
  if is_ordered then "</ol>" else "</ul>"

/-- Segment-level image of `renderListGo`: the same text as a list of the
individual `push_str` arguments, in order (each tag and each item's rendered
content is one segment).  `listSegs_spec` below proves that its
concatenation is exactly `renderListGo`'s output. -/
def listSegs (tag : String) (cfg : CompilerConfig) (w : ExtWorld) :
    List ListItem → Nat → Nat → List String × Nat
  | [], currentLevel, _ => ([], currentLevel)
  | item :: rest, currentLevel, i =>
    let adjust : List String :=
      if currentLevel < item.level then
        List.replicate (item.level - currentLevel) ("<" ++ tag ++ ">")
      else if item.level < currentLevel then
        "</li>" ::
          (List.replicate (currentLevel - item.level)
            ["</" ++ tag ++ ">", "</li>"]).flatten
      else if 0 < i then ["</li>"] else []
    let r := listSegs tag cfg w rest item.level (i + 1)
    (adjust ++ "<li>" :: itemInner item cfg w :: r.1, r.2)

/-- Segment list of the complete rendering of a list block: root open tag,
the item loop's segments, the closing of the last item, one closing tag pair
per level still open at the end, and the root close tag. -/
def fullSegs (tag : String) (cfg : CompilerConfig) (w : ExtWorld)
    (items : List ListItem) : List String :=
  ("<" ++ tag ++ ">") ::
    (listSegs tag cfg w items 0 0).1 ++
      "</li>" ::
        (List.replicate (listSegs tag cfg w items 0 0).2
          ["</" ++ tag ++ ">", "</li>"]).flatten ++
          ["</" ++ tag ++ ">"]

/-- Chain condition on a flat item sequence: starting from `cur`, no item's
level exceeds its predecessor's level (resp. `cur` for the first) by more
than one. -/
def stepOk : Nat → List ListItem → Prop
  | _, [] => True
  | cur, it :: rest => it.level ≤ cur + 1 ∧ stepOk it.level rest

/-- The level shape under which the list renderer emits balanced markup:
the first item is at level 0 and no consecutive upward jump exceeds one. -/
def levelsOk : List ListItem → Prop
  | [] => True
  | it :: rest => it.level = 0 ∧ stepOk it.level rest

def stepOkDec : (cur : Nat) → (l : List ListItem) → Decidable (stepOk cur l)
  | _, [] => isTrue trivial
  | cur, it :: rest =>
    match stepOkDec it.level rest with
    | isTrue h =>
      if h2 : it.level ≤ cur + 1 then isTrue ⟨h2, h⟩
      else isFalse (fun hh => h2 hh.1)
    | isFalse h => isFalse (fun hh => h hh.2)

instance (cur : Nat) (l : List ListItem) : Decidable (stepOk cur l) :=
  stepOkDec cur l

instance : (l : List ListItem) → Decidable (levelsOk l)
  | [] => isTrue trivial
  | it :: rest =>
    inferInstanceAs (Decidable (it.level = 0 ∧ stepOk it.level rest))

/-- A string none of whose characters is special to `parse_text`. -/
def specialFree (s : String) : Prop :=
  ∀ c ∈ s.data, c ∉ specials

instance (s : String) : Decidable (specialFree s) :=
  inferInstanceAs (Decidable (∀ c ∈ s.data, c ∉ specials))

/-- The conditions under which the `parse_blocks` dispatch on a fresh line
reaches its two list branches: the line is not blank and matches none of the
eight prefix-dispatched block openers (main.rs lines 168-249). -/
def listDispatchFree (l : String) : Prop :=
  rustBlank l = false ∧ strStarts l "#" = false ∧ strStarts l "```" = false ∧
  strStarts l "\\[" = false ∧ strStarts l "![" = false ∧
  strStarts l "<!--" = false ∧ strStarts l "<html>" = false ∧
  strStarts l ">> " = false ∧ strStarts l "[^" = false

instance (l : String) : Decidable (listDispatchFree l) := by
  unfold listDispatchFree
  infer_instance

/-- The conditions under which the dispatch falls through to the paragraph
branch: additionally, neither list-item pattern matches. -/
def paragraphFallthrough (l : String) : Prop :=
  listDispatchFree l ∧ captures_ol_li l = none ∧ captures_ul_li l = none

instance (l : String) : Decidable (paragraphFallthrough l) := by
  unfold paragraphFallthrough
  infer_instance

/-- `text_buf` of `parse_blocks` after appending each line of `ls` followed
by one space (the soft line-wrap join), starting from `buf`. -/
def joinSp (buf : String) (ls : List String) : String :=
  ls.foldl (fun a l => a ++ l ++ " ") buf

/-- Fixture: a configuration whose math template is just the placeholder
(so the written `.tex` content is the wrapped fragment itself). -/
def cfg0 : CompilerConfig :=
  ⟨"/static/images", "{{content}}", "{{content}}"⟩

/-- Fixture: a world where both subprocesses succeed and `dvisvgm` echoes
the `.tex` content as its output. -/
def w0 : ExtWorld :=
  ⟨fun _ => true, fun _ => "", fun _ => true, fun s => s, "\"/tmp/x/math.dvi\""⟩

/-- Fixture: a world whose typesetting command always fails with diagnostic
output `boom`. -/
def wfail : ExtWorld :=
  ⟨fun _ => false, fun _ => "boom", fun _ => true, fun s => s, "\"/tmp/x/math.dvi\""⟩

/-- Fixture: a world where typesetting the document `$x$` fails and any
other document typesets but leaves no DVI artifact behind. -/
def wsel : ExtWorld :=
  ⟨fun c => !(c == "$x$"), fun _ => "boom", fun _ => false, fun s => s,
   "\"/tmp/x/math.dvi\""⟩

/-- Fixture: the list items of the spec's nesting test, levels `[0,1,1,0]`
with plain contents `a b c d`. -/
def demoItems : List ListItem :=
  [⟨0, [⟨"a", TextFormat.Plain⟩]⟩, ⟨1, [⟨"b", TextFormat.Plain⟩]⟩,
   ⟨1, [⟨"c", TextFormat.Plain⟩]⟩, ⟨0, [⟨"d", TextFormat.Plain⟩]⟩]

/-- Fixture: a flat item sequence whose level jumps from 0 to 2. -/
def jumpItems : List ListItem :=
  [⟨0, [⟨"a", TextFormat.Plain⟩]⟩, ⟨2, [⟨"b", TextFormat.Plain⟩]⟩]

/-! ## Helper lemmas: inline formatter -/

theorem string_ext {a b : String} (h : a.data = b.data) : a = b := by
  cases a
  cases b
  exact congrArg String.mk h

theorem takeWhile_all_append (p : Char → Bool) (xs ys : List Char)
    (h : ∀ c ∈ xs, p c = true) :
    (xs ++ ys).takeWhile p = xs ++ ys.takeWhile p := by
  induction xs with
  | nil => rfl
  | cons c cs ih =>
    have hc : p c = true := h c (by simp)
    simp [List.takeWhile_cons, hc, ih (fun c hc => h c (by simp [hc]))]

theorem dropWhile_all_append (p : Char → Bool) (xs ys : List Char)
    (h : ∀ c ∈ xs, p c = true) :
    (xs ++ ys).dropWhile p = ys.dropWhile p := by
  induction xs with
  | nil => rfl
  | cons c cs ih =>
    have hc : p c = true := h c (by simp)
    simp [List.dropWhile_cons, hc, ih (fun c hc => h c (by simp [hc]))]

theorem matchLinkAt_none_of_ne (c : Char) (cs : List Char) (hc : c ≠ '[') :
    matchLinkAt (c :: cs) = none := by
  unfold matchLinkAt
  split
  all_goals
    first
    | rfl
    | (rename_i heq
       exact absurd (List.head_eq_of_cons_eq heq) hc)

theorem matchFootnoteAt_none_of_ne (c : Char) (cs : List Char) (hc : c ≠ '[') :
    matchFootnoteAt (c :: cs) = none := by
  unfold matchFootnoteAt
  split
  all_goals
    first
    | rfl
    | (rename_i heq
       exact absurd (List.head_eq_of_cons_eq heq) hc)

theorem findLink_none_of_no_lbracket (cs : List Char) (h : '[' ∉ cs) :
    findLink cs = none := by
  induction cs with
  | nil => rfl
  | cons c cs ih =>
    have hc : c ≠ '[' := fun e => h (by simp [e])
    rw [findLink, matchLinkAt_none_of_ne c cs hc, ih (fun hm => h (by simp [hm]))]

theorem findFootnoteRef_none_of_no_lbracket (cs : List Char) (h : '[' ∉ cs) :
    findFootnoteRef cs = none := by
  induction cs with
  | nil => rfl
  | cons c cs ih =>
    have hc : c ≠ '[' := fun e => h (by simp [e])
    rw [findFootnoteRef, matchFootnoteAt_none_of_ne c cs hc,
      ih (fun hm => h (by simp [hm]))]

/-- Flushing a nonempty buffer toward a non-Plain style always emits it as a
single run in the current style (no link/footnote postprocessing), toggles,
and clears the buffer. -/
theorem push_single_of_ne_plain (cs : List Char) (fc fn : TextFormat)
    (hne : cs ≠ []) (hfn : fn ≠ TextFormat.Plain) :
    push_fmted_text cs fc fn = ([Text.mk ⟨cs⟩ fc], toggle fc fn, []) := by
  obtain ⟨c, cs', rfl⟩ : ∃ c cs', cs = c :: cs' := by
    cases cs with
    | nil => exact absurd rfl hne
    | cons c cs' => exact ⟨c, cs', rfl⟩
  show pushFmtedGo (cs'.length + 1 + 1) _ _ _ = _
  rw [pushFmtedGo]
  simp [hne, hfn]

/-- Flushing a nonempty buffer that contains no `[` toward Plain emits it as
a single run (neither pattern can match). -/
theorem push_single_of_no_lbracket (cs : List Char) (fc : TextFormat)
    (hne : cs ≠ []) (hlb : '[' ∉ cs) :
    push_fmted_text cs fc TextFormat.Plain =
      ([Text.mk ⟨cs⟩ fc], toggle fc TextFormat.Plain, []) := by
  obtain ⟨c, cs', rfl⟩ : ∃ c cs', cs = c :: cs' := by
    cases cs with
    | nil => exact absurd rfl hne
    | cons c cs' => exact ⟨c, cs', rfl⟩
  show pushFmtedGo (cs'.length + 1 + 1) _ _ _ = _
  rw [pushFmtedGo]
  simp [hne, findLink_none_of_no_lbracket _ hlb, findFootnoteRef_none_of_no_lbracket _ hlb]

/-- The empty buffer flush is a no-op: nothing is emitted and, in
particular, `fmt_c` is NOT toggled (the early return of line 394). -/
theorem push_empty (fc fn : TextFormat) :
    push_fmted_text [] fc fn = ([], fc, []) := by
  rfl

/-- `parse_text_go` only appends to the accumulated `texts`. -/
theorem parse_text_go_texts (cs : List Char) :
    ∀ (sbuf : List Char) (t1 t2 : List Text) (e : Bool) (f : TextFormat) (l : Bool),
    parse_text_go cs sbuf (t1 ++ t2) e f l = t1 ++ parse_text_go cs sbuf t2 e f l := by
  induction cs with
  | nil =>
    intro sbuf t1 t2 e f l
    simp [parse_text_go, List.append_assoc]
  | cons c cs ih =>
    intro sbuf t1 t2 e f l
    rw [parse_text_go]
    conv_rhs => rw [parse_text_go]
    repeat
      first
      | exact ih _ _ _ _ _ _
      | (dsimp only
         rw [List.append_assoc]
         exact ih _ _ _ _ _ _)
      | split

/-- Characters that are not special accumulate one by one into the buffer
(outside literal mode, not escaped). -/
theorem parse_text_go_accum (cs : List Char) (h : ∀ c ∈ cs, c ∉ specials) :
    ∀ (rest sbuf : List Char) (texts : List Text) (fmt : TextFormat),
    parse_text_go (cs ++ rest) sbuf texts false fmt false =
      parse_text_go rest (sbuf ++ cs) texts false fmt false := by
  induction cs with
  | nil => intro rest sbuf texts fmt; simp
  | cons c cs ih =>
    intro rest sbuf texts fmt
    have hc := h c (by simp)
    simp only [specials, List.mem_cons, List.not_mem_nil, or_false, not_or] at hc
    obtain ⟨h1, h2, h3, h4, h5⟩ := hc
    rw [List.cons_append, parse_text_go]
    simp only [Bool.false_eq_true, if_false]
    rw [if_neg h1, if_neg h2, if_neg h3, if_neg h4, if_neg h5]
    rw [ih (fun x hx => h x (by simp [hx]))]
    simp

/-- Inside an inline-math literal span, every character other than `$` is
appended verbatim to the buffer — including backslashes, since the escape
flag can never be set while in literal mode. -/
theorem parse_text_go_accum_lit (cs : List Char) (h : ∀ c ∈ cs, c ≠ '$') :
    ∀ (rest sbuf : List Char) (texts : List Text),
    parse_text_go (cs ++ rest) sbuf texts false TextFormat.InlineMath true =
      parse_text_go rest (sbuf ++ cs) texts false TextFormat.InlineMath true := by
  induction cs with
  | nil => intro rest sbuf texts; simp
  | cons c cs ih =>
    intro rest sbuf texts
    have hc := h c (by simp)
    rw [List.cons_append, parse_text_go]
    simp only [Bool.false_eq_true, if_false, if_true]
    rw [if_neg (fun hx => hc hx.1),
      if_neg (fun hx => TextFormat.noConfusion hx.2)]
    rw [ih (fun x hx => h x (by simp [hx]))]
    simp

theorem string_mk_data (s : String) : (⟨s.data⟩ : String) = s := by
  cases s
  rfl

theorem parse_text_go_texts2 (cs : List Char) (sbuf : List Char)
    (ts : List Text) (e : Bool) (f : TextFormat) (l : Bool) :
    parse_text_go cs sbuf ts e f l = ts ++ parse_text_go cs sbuf [] e f l := by
  have h := parse_text_go_texts cs sbuf ts [] e f l
  simpa using h

theorem parse_text_go_nil (sbuf : List Char) (ts : List Text) (e : Bool)
    (f : TextFormat) (l : Bool) :
    parse_text_go [] sbuf ts e f l = ts ++ (push_fmted_text sbuf f f).1 := by
  rfl

/-- Unfolding of the `*` dispatch arm (outside literal mode, not escaped). -/
theorem parse_text_go_star (rest sbuf : List Char) (ts : List Text)
    (fmt : TextFormat) :
    parse_text_go ('*' :: rest) sbuf ts false fmt false =
      parse_text_go rest (push_fmted_text sbuf fmt TextFormat.Bold).2.2
        (ts ++ (push_fmted_text sbuf fmt TextFormat.Bold).1) false
        (push_fmted_text sbuf fmt TextFormat.Bold).2.1 false := by
  rw [parse_text_go]
  rw [if_neg (by decide), if_neg (by decide), if_neg (by decide), if_pos rfl]

/-- Unfolding of the `$` dispatch arm outside literal mode: flush toward
InlineMath and enter literal mode. -/
theorem parse_text_go_dollar_open (rest sbuf : List Char) (ts : List Text)
    (fmt : TextFormat) :
    parse_text_go ('$' :: rest) sbuf ts false fmt false =
      parse_text_go rest (push_fmted_text sbuf fmt TextFormat.InlineMath).2.2
        (ts ++ (push_fmted_text sbuf fmt TextFormat.InlineMath).1) false
        (push_fmted_text sbuf fmt TextFormat.InlineMath).2.1 true := by
  rw [parse_text_go]
  rw [if_neg (by decide), if_neg (by decide), if_neg (by decide),
    if_neg (by decide), if_neg (by decide), if_pos rfl]
  rfl

/-- Unfolding of the closing `$` inside an InlineMath literal span: flush
toward Plain and leave literal mode. -/
theorem parse_text_go_dollar_close (rest sbuf : List Char) (ts : List Text) :
    parse_text_go ('$' :: rest) sbuf ts false TextFormat.InlineMath true =
      parse_text_go rest
        (push_fmted_text sbuf TextFormat.InlineMath TextFormat.Plain).2.2
        (ts ++ (push_fmted_text sbuf TextFormat.InlineMath TextFormat.Plain).1)
        false
        (push_fmted_text sbuf TextFormat.InlineMath TextFormat.Plain).2.1
        false := by
  rw [parse_text_go]
  rw [if_neg (by decide), if_pos (by decide), if_pos ⟨rfl, rfl⟩]

/-- The head-anchored link matcher on an exactly-shaped buffer
`[a](b)<post>`. -/
theorem matchLinkAt_exact (a b : String) (post : List Char)
    (ha : a.data ≠ []) (ha2 : ∀ c ∈ a.data, c ≠ ']')
    (hb : b.data ≠ []) (hb2 : ∀ c ∈ b.data, c ≠ ')') :
    matchLinkAt ('[' :: (a.data ++ ']' :: '(' :: (b.data ++ ')' :: post))) =
      some (a, b, post) := by
  rw [matchLinkAt]
  rw [takeWhile_all_append _ a.data _ (fun c hc => by simp [ha2 c hc]),
    dropWhile_all_append _ a.data _ (fun c hc => by simp [ha2 c hc])]
  have e1 : List.takeWhile (fun c => decide (c ≠ ']'))
      (']' :: '(' :: (b.data ++ ')' :: post)) = [] := by
    simp [List.takeWhile_cons]
  have e2 : List.dropWhile (fun c => decide (c ≠ ']'))
      (']' :: '(' :: (b.data ++ ')' :: post)) =
      ']' :: '(' :: (b.data ++ ')' :: post) := by
    simp [List.dropWhile_cons]
  rw [e1, e2]
  simp only [List.append_nil]
  rw [if_neg ha]
  rw [takeWhile_all_append _ b.data _ (fun c hc => by simp [hb2 c hc]),
    dropWhile_all_append _ b.data _ (fun c hc => by simp [hb2 c hc])]
  have e3 : List.takeWhile (fun c => decide (c ≠ ')')) (')' :: post) = [] := by
    simp
  have e4 : List.dropWhile (fun c => decide (c ≠ ')')) (')' :: post) =
      ')' :: post := by
    simp
  rw [e3, e4]
  simp only [List.append_nil]
  rw [if_neg hb]

/-- `findLink` on a buffer that is exactly `[a](b)`. -/
theorem findLink_exact (a b : String)
    (ha : a.data ≠ []) (ha2 : ∀ c ∈ a.data, c ≠ ']')
    (hb : b.data ≠ []) (hb2 : ∀ c ∈ b.data, c ≠ ')') :
    findLink ('[' :: (a.data ++ ']' :: '(' :: (b.data ++ [')']))) =
      some ([], a, b, []) := by
  rw [findLink]
  rw [show (b.data ++ [')'] : List Char) = b.data ++ ')' :: [] from rfl]
  rw [matchLinkAt_exact a b [] ha ha2 hb hb2]

/-- Flushing a buffer that is exactly `[a](b)` toward Plain: the whole
buffer becomes a single Link run (the pre-match text is empty and the match
reaches the end of the buffer), the style toggles, and the buffer is
cleared. -/
theorem push_link_exact (a b : String) (fc : TextFormat)
    (ha : a.data ≠ []) (ha2 : ∀ c ∈ a.data, c ≠ ']')
    (hb : b.data ≠ []) (hb2 : ∀ c ∈ b.data, c ≠ ')') :
    push_fmted_text ('[' :: (a.data ++ ']' :: '(' :: (b.data ++ [')']))) fc
        TextFormat.Plain =
      ([Text.mk a (TextFormat.Link b)], toggle fc TextFormat.Plain, []) := by
  show pushFmtedGo _ _ _ _ = _
  rw [pushFmtedGo]
  rw [if_neg (by simp), if_pos rfl]
  rw [findLink_exact a b ha ha2 hb hb2]
  simp

theorem specialFree_app (u : String) (hu : specialFree u) (d : Char)
    (hd : d ∈ specials) : d ∉ u.data :=
  fun m => hu d m hd

/-! ## Helper lemmas: block segmenter -/

/-- The list scanner of the ordered branch consumes every line matching
either item pattern (ordered tried first), in order, and stops at the first
line `t` matching neither, consuming and dropping it. -/
theorem scanOlItems_spec (ms : List (String × ListItem)) (t : String)
    (rest : List String)
    (hm : ∀ p ∈ ms, captures_ol_li p.1 = some p.2 ∨
          (captures_ol_li p.1 = none ∧ captures_ul_li p.1 = some p.2))
    (ht1 : captures_ol_li t = none) (ht2 : captures_ul_li t = none) :
    scanOlItems (ms.map Prod.fst ++ t :: rest) = (ms.map Prod.snd, rest) := by
  induction ms with
  | nil => simp [scanOlItems, ht1, ht2]
  | cons p ms ih =>
    rcases hm p (by simp) with h | ⟨h1, h2⟩
    · simp [scanOlItems, h, ih (fun q hq => hm q (by simp [hq]))]
    · simp [scanOlItems, h1, h2, ih (fun q hq => hm q (by simp [hq]))]

/-- Same for the unordered branch (unordered pattern tried first). -/
theorem scanUlItems_spec (ms : List (String × ListItem)) (t : String)
    (rest : List String)
    (hm : ∀ p ∈ ms, captures_ul_li p.1 = some p.2 ∨
          (captures_ul_li p.1 = none ∧ captures_ol_li p.1 = some p.2))
    (ht1 : captures_ol_li t = none) (ht2 : captures_ul_li t = none) :
    scanUlItems (ms.map Prod.fst ++ t :: rest) = (ms.map Prod.snd, rest) := by
  induction ms with
  | nil => simp [scanUlItems, ht1, ht2]
  | cons p ms ih =>
    rcases hm p (by simp) with h | ⟨h1, h2⟩
    · simp [scanUlItems, h, ih (fun q hq => hm q (by simp [hq]))]
    · simp [scanUlItems, h1, h2, ih (fun q hq => hm q (by simp [hq]))]

/-- One step of the segmenter on a fresh line that opens an ordered list:
the whole contiguous item run is consumed into one `List` block with
`is_ordered = true`, and scanning resumes after the scanner's stopping
point. -/
theorem parseBlocksGo_list_ol (fuel : Nat) (l0 : String) (li0 : ListItem)
    (ls : List String) (blocks : List Block) (buf : String)
    (hd : listDispatchFree l0) (h0 : captures_ol_li l0 = some li0) :
    parseBlocksGo (fuel + 1) (l0 :: ls) blocks buf true =
      parseBlocksGo fuel (scanOlItems ls).2
        (blocks ++ [Block.List true (li0 :: (scanOlItems ls).1)]) buf false := by
  obtain ⟨hb, h1, h2, h3, h4, h5, h6, h7, h8⟩ := hd
  rw [parseBlocksGo]
  simp [parseBlocksStep, hb, h1, h2, h3, h4, h5, h6, h7, h8, listBranch, h0]

/-- One step of the segmenter on a fresh line that opens an unordered list
(the ordered pattern does not match it): one `List` block with
`is_ordered = false`. -/
theorem parseBlocksGo_list_ul (fuel : Nat) (l0 : String) (li0 : ListItem)
    (ls : List String) (blocks : List Block) (buf : String)
    (hd : listDispatchFree l0) (h0 : captures_ol_li l0 = none)
    (h0' : captures_ul_li l0 = some li0) :
    parseBlocksGo (fuel + 1) (l0 :: ls) blocks buf true =
      parseBlocksGo fuel (scanUlItems ls).2
        (blocks ++ [Block.List false (li0 :: (scanUlItems ls).1)]) buf false := by
  obtain ⟨hb, h1, h2, h3, h4, h5, h6, h7, h8⟩ := hd
  rw [parseBlocksGo]
  simp [parseBlocksStep, hb, h1, h2, h3, h4, h5, h6, h7, h8, listBranch, h0, h0']

theorem append_space_ne_empty (a : String) : a ++ " " ≠ "" := by
  intro h
  have h2 := congrArg String.data h
  rw [String.data_append] at h2
  simp [show (" " : String).data = [' '] from rfl] at h2

/-- Once the segmenter is in paragraph-accumulation mode with a nonempty
buffer, a run of non-blank lines is appended to the buffer with separating
spaces and flushed as a single Paragraph block at end of input. -/
theorem parseBlocksGo_para (ls : List String) :
    ∀ (fuel : Nat) (blocks : List Block) (buf : String),
    ls.length < fuel → (∀ l ∈ ls, rustBlank l = false) → buf ≠ "" →
    parseBlocksGo fuel ls blocks buf false =
      some (blocks ++ [Block.Paragraph [Text.mk (joinSp buf ls) TextFormat.Raw]]) := by
  induction ls with
  | nil =>
    intro fuel blocks buf _ _ hne
    simp [parseBlocksGo, joinSp, hne]
  | cons l ls ih =>
    intro fuel blocks buf hf hb hne
    cases fuel with
    | zero => simp at hf
    | succ f =>
      rw [parseBlocksGo]
      unfold parseBlocksStep
      rw [if_neg (by simp [hb l (by simp)])]
      rw [if_pos (by simp)]
      dsimp only
      rw [ih f blocks (buf ++ l ++ " ")
        (by simpa using Nat.lt_of_succ_lt_succ hf)
        (fun x hx => hb x (by simp [hx]))
        (append_space_ne_empty (buf ++ l))]
      rfl

/-! ## Helper lemmas: renderer -/

theorem render_document_append (a b : List Block) (cfg : CompilerConfig)
    (w : ExtWorld) :
    render_document (a ++ b) cfg w =
      render_document a cfg w ++ render_document b cfg w := by
  induction a with
  | nil => simp [render_document]
  | cons x xs ih => simp [render_document, ih, String.append_assoc]


/-! ## Helper lemmas: list tag counting -/

theorem sjoin_data (l : List String) :
    (sjoin l).data = (l.map String.data).flatten := by
  induction l with
  | nil => rfl
  | cons x xs ih => simp [sjoin, String.data_append, ih]

theorem sjoin_append (a b : List String) :
    sjoin (a ++ b) = sjoin a ++ sjoin b := by
  induction a with
  | nil => simp [sjoin, String.empty_append]
  | cons x xs ih => simp [sjoin, ih, String.append_assoc]

theorem sjoin_flatten_pairs (x y : String) (n : Nat) :
    sjoin ((List.replicate n [x, y]).flatten) =
      sjoin (List.replicate n (x ++ y)) := by
  induction n with
  | zero => rfl
  | succ n ih =>
    rw [List.replicate_succ, List.flatten_cons, sjoin_append, ih,
      List.replicate_succ]
    rw [show sjoin [x, y] = x ++ (y ++ "") from rfl, String.append_empty]
    rfl

theorem sjoin_ltfree (l : List String) (h : ∀ x ∈ l, '<' ∉ x.data) :
    '<' ∉ (sjoin l).data := by
  induction l with
  | nil => simp [sjoin, show ("" : String).data = [] from rfl]
  | cons x xs ih =>
    simp only [sjoin, String.data_append, List.mem_append]
    rintro (hx | hx)
    · exact h x (by simp) hx
    · exact ih (fun y hy => h y (by simp [hy])) hx

theorem isPrefixOf_self_append (l r : List Char) :
    l.isPrefixOf (l ++ r) = true := by
  simp [List.isPrefixOf_iff_prefix]

theorem isPrefixOf_append_false (t : List Char) :
    ∀ (p r : List Char), p.isPrefixOf t = false → t.isPrefixOf p = false →
    p.isPrefixOf (t ++ r) = false := by
  induction t with
  | nil =>
    intro p r _ h2
    simp [List.isPrefixOf] at h2
  | cons b bs ih =>
    intro p r h1 h2
    cases p with
    | nil => simp [List.isPrefixOf] at h1
    | cons a as =>
      simp only [List.isPrefixOf, List.cons_append, Bool.and_eq_false_iff]
        at h1 h2 ⊢
      rcases h1 with h1 | h1
      · exact Or.inl h1
      · rcases h2 with h2 | h2
        · refine Or.inl ?_
          rw [beq_eq_false_iff_ne] at h2 ⊢
          exact h2.symm
        · exact Or.inr (ih as r h1 h2)

theorem countOcc_ltfree_append (q : List Char) :
    ∀ (xs r : List Char), '<' ∉ xs →
    countOcc ('<' :: q) (xs ++ r) = countOcc ('<' :: q) r := by
  intro xs
  induction xs with
  | nil => intro r _; rfl
  | cons x xs ih =>
    intro r h
    have hx : ¬ ('<' = x) := fun e => h (by simp [e.symm])
    rw [List.cons_append, countOcc]
    rw [if_neg (by simp [List.isPrefixOf, hx])]
    rw [ih r (fun m => h (by simp [m]))]
    omega

theorem countSeg_append (p : String) (a b : List String) :
    countSeg p (a ++ b) = countSeg p a + countSeg p b := by
  induction a with
  | nil => simp [countSeg]
  | cons x xs ih =>
    simp [countSeg, ih]
    omega

theorem countSeg_replicate (p x : String) (n : Nat) :
    countSeg p (List.replicate n x) = n * (if x = p then 1 else 0) := by
  induction n with
  | zero => simp [countSeg]
  | succ n ih =>
    rw [List.replicate_succ, countSeg, ih]
    by_cases h : x = p <;> simp [h] <;> omega

theorem countSeg_flatten_replicate (p : String) (l : List String) (n : Nat) :
    countSeg p ((List.replicate n l).flatten) = n * countSeg p l := by
  induction n with
  | zero => simp [countSeg]
  | succ n ih =>
    rw [List.replicate_succ, List.flatten_cons, countSeg_append, ih]
    ring

theorem countOcc_segs (p : String) (toks : List String)
    (hp : p ∈ toks)
    (hhead : ∀ t ∈ toks, ∃ r, t.data = '<' :: r ∧ '<' ∉ r)
    (hpair : ∀ t1 ∈ toks, ∀ t2 ∈ toks, t1 ≠ t2 →
      t1.data.isPrefixOf t2.data = false) :
    ∀ segs : List String, (∀ x ∈ segs, x ∈ toks ∨ '<' ∉ x.data) →
    countOcc p.data ((segs.map String.data).flatten) = countSeg p segs := by
  obtain ⟨pr, hpd, hpr⟩ := hhead p hp
  intro segs
  induction segs with
  | nil => intro _; simp [countOcc, countSeg]
  | cons x xs ih =>
    intro hseg
    have ihx := ih (fun y hy => hseg y (by simp [hy]))
    simp only [List.map_cons, List.flatten_cons, countSeg]
    rcases hseg x (by simp) with hx | hx
    · obtain ⟨xr, hxd, hxr⟩ := hhead x hx
      by_cases hxp : x = p
      · subst hxp
        rw [hpd, List.cons_append, countOcc]
        rw [if_pos (by rw [← List.cons_append, ← hpd]
                       exact isPrefixOf_self_append x.data _)]
        have hq : pr = xr := by
          rw [hpd] at hxd
          injection hxd
        rw [countOcc_ltfree_append pr pr _ (hq ▸ hxr)]
        rw [← hpd, ihx, if_pos rfl]
      · have hne1 : p.data.isPrefixOf x.data = false :=
          hpair p hp x hx (fun e => hxp e.symm)
        have hne2 : x.data.isPrefixOf p.data = false := hpair x hx p hp hxp
        rw [hxd, List.cons_append, hpd, countOcc]
        rw [if_neg (by rw [← List.cons_append, ← hxd, ← hpd]
                       simp [isPrefixOf_append_false x.data p.data _ hne1 hne2])]
        rw [countOcc_ltfree_append pr xr _ hxr]
        rw [← hpd, ihx, if_neg hxp]
    · have hxp : x ≠ p := fun e => hx (by rw [e, hpd]; simp)
      rw [hpd, countOcc_ltfree_append pr x.data _ hx]
      rw [← hpd, ihx, if_neg hxp]
      omega


theorem countSeg_cons (p x : String) (l : List String) :
    countSeg p (x :: l) = (if x = p then 1 else 0) + countSeg p l := rfl

theorem countSeg_nil (p : String) : countSeg p [] = 0 := rfl

theorem sjoin_cons (x : String) (l : List String) : sjoin (x :: l) = x ++ sjoin l := rfl

theorem listSegs_spec (tag : String) (cfg : CompilerConfig) (w : ExtWorld) :
    ∀ (items : List ListItem) (cur i : Nat),
    (renderListGo tag cfg w items cur i).1 =
      sjoin (listSegs tag cfg w items cur i).1 ∧
    (renderListGo tag cfg w items cur i).2 =
      (listSegs tag cfg w items cur i).2 := by
  intro items
  induction items with
  | nil => intro cur i; exact ⟨rfl, rfl⟩
  | cons it rest ih =>
    intro cur i
    rw [renderListGo, listSegs]
    obtain ⟨ih1, ih2⟩ := ih it.level (i + 1)
    refine ⟨?_, by dsimp only; exact ih2⟩
    dsimp only
    rw [ih1, sjoin_append]
    by_cases h1 : cur < it.level
    · rw [if_pos h1, if_pos h1]
      simp [sjoin, String.append_assoc]
    · rw [if_neg h1, if_neg h1]
      by_cases h2 : it.level < cur
      · rw [if_pos h2, if_pos h2]
        rw [show sjoin ("</li>" ::
            (List.replicate (cur - it.level) ["</" ++ tag ++ ">", "</li>"]).flatten) =
          "</li>" ++ sjoin ((List.replicate (cur - it.level)
            ["</" ++ tag ++ ">", "</li>"]).flatten) from rfl]
        rw [sjoin_flatten_pairs]
        simp [sjoin, String.append_assoc, String.append_empty]
      · rw [if_neg h2, if_neg h2]
        by_cases h3 : 0 < i
        · rw [if_pos h3, if_pos h3]
          rw [show sjoin ["</li>"] = "</li>" ++ "" from rfl, String.append_empty,
            sjoin_cons, sjoin_cons, String.append_assoc, String.append_assoc]
        · rw [if_neg h3, if_neg h3]
          simp [sjoin, String.append_assoc]

theorem listSegs_segOk (tag : String) (cfg : CompilerConfig) (w : ExtWorld) :
    ∀ (items : List ListItem) (cur i : Nat),
    (∀ it ∈ items, '<' ∉ (itemInner it cfg w).data) →
    ∀ x ∈ (listSegs tag cfg w items cur i).1,
      x ∈ ["<" ++ tag ++ ">", "</" ++ tag ++ ">", "<li>", "</li>"] ∨
        '<' ∉ x.data := by
  intro items
  induction items with
  | nil =>
    intro cur i _ x hx
    simp [listSegs] at hx
  | cons it rest ih =>
    intro cur i hc x hx
    rw [listSegs] at hx
    dsimp only at hx
    rw [List.mem_append] at hx
    rcases hx with hx | hx
    · left
      split at hx
      · rw [List.mem_replicate] at hx
        simp [hx.2]
      · split at hx
        · rw [List.mem_cons] at hx
          rcases hx with rfl | hx
          · simp
          · rw [List.mem_flatten] at hx
            obtain ⟨l, hl, hxl⟩ := hx
            rw [List.mem_replicate] at hl
            rw [hl.2] at hxl
            simp only [List.mem_cons, List.not_mem_nil, or_false] at hxl
            rcases hxl with rfl | rfl
            · simp
            · simp
        · split at hx
          · simp only [List.mem_cons, List.not_mem_nil, or_false] at hx
            subst hx
            simp
          · simp at hx
    · rw [List.mem_cons] at hx
      rcases hx with rfl | hx
      · left; simp
      · rw [List.mem_cons] at hx
        rcases hx with rfl | hx
        · right
          exact hc it (by simp)
        · exact ih it.level (i + 1) (fun y hy => hc y (by simp [hy])) x hx

theorem listSegs_invariant (tag : String) (cfg : CompilerConfig) (w : ExtWorld)
    (htag : tag = "ol" ∨ tag = "ul") :
    ∀ (items : List ListItem) (cur i : Nat), 0 < i → stepOk cur items →
    (∀ it ∈ items, '<' ∉ (itemInner it cfg w).data) →
    (countSeg ("<" ++ tag ++ ">") (listSegs tag cfg w items cur i).1 + cur =
       countSeg ("</" ++ tag ++ ">") (listSegs tag cfg w items cur i).1 +
         (listSegs tag cfg w items cur i).2) ∧
    (countSeg "<li>" (listSegs tag cfg w items cur i).1 + cur =
       countSeg "</li>" (listSegs tag cfg w items cur i).1 +
         (listSegs tag cfg w items cur i).2) := by
  have hlt : ∀ (s : String), '<' ∉ s.data →
      s ≠ "<" ++ tag ++ ">" ∧ s ≠ "</" ++ tag ++ ">" ∧ s ≠ "<li>" ∧ s ≠ "</li>" := by
    intro s hs
    rcases htag with rfl | rfl <;>
      exact ⟨fun e => hs (by rw [e]; decide), fun e => hs (by rw [e]; decide),
        fun e => hs (by rw [e]; decide), fun e => hs (by rw [e]; decide)⟩
  have d1 : ("<" ++ tag ++ ">" : String) ≠ "</" ++ tag ++ ">" := by
    rcases htag with rfl | rfl <;> decide
  have d2 : ("<" ++ tag ++ ">" : String) ≠ "<li>" := by
    rcases htag with rfl | rfl <;> decide
  have d3 : ("<" ++ tag ++ ">" : String) ≠ "</li>" := by
    rcases htag with rfl | rfl <;> decide
  have d4 : ("</" ++ tag ++ ">" : String) ≠ "<li>" := by
    rcases htag with rfl | rfl <;> decide
  have d5 : ("</" ++ tag ++ ">" : String) ≠ "</li>" := by
    rcases htag with rfl | rfl <;> decide
  have d6 : ("<li>" : String) ≠ "</li>" := by decide
  intro items
  induction items with
  | nil =>
    intro cur i _ _ _
    simp [listSegs, countSeg]
  | cons it rest ih =>
    intro cur i hi hstep hc
    obtain ⟨hlev, hstep'⟩ := hstep
    obtain ⟨ir1, ir2⟩ := ih it.level (i + 1) (by omega) hstep'
      (fun y hy => hc y (by simp [hy]))
    obtain ⟨hn1, hn2, hn3, hn4⟩ := hlt (itemInner it cfg w) (hc it (by simp))
    rw [listSegs]
    dsimp only
    rcases Nat.lt_trichotomy cur it.level with h1 | h1 | h1
    · rw [if_pos h1]
      have hone : it.level - cur = 1 := by omega
      rw [hone]
      refine ⟨?_, ?_⟩ <;>
        simp [countSeg_append, countSeg_cons, countSeg_nil, countSeg_replicate,
          d1, d1.symm, d2, d2.symm, d3, d3.symm, d4, d4.symm, d5, d5.symm,
          d6, d6.symm, hn1, hn2, hn3, hn4] <;>
        omega
    · rw [if_neg (by omega), if_neg (by omega), if_pos hi]
      refine ⟨?_, ?_⟩ <;>
        simp [countSeg_append, countSeg_cons, countSeg_nil,
          d1, d1.symm, d2, d2.symm, d3, d3.symm, d4, d4.symm, d5, d5.symm,
          d6, d6.symm, hn1, hn2, hn3, hn4] <;>
        omega
    · rw [if_neg (by omega), if_pos h1]
      refine ⟨?_, ?_⟩ <;>
        simp [countSeg_append, countSeg_cons, countSeg_nil,
          countSeg_flatten_replicate,
          d1, d1.symm, d2, d2.symm, d3, d3.symm, d4, d4.symm, d5, d5.symm,
          d6, d6.symm, hn1, hn2, hn3, hn4] <;>
        omega

theorem fullSegs_segOk (tag : String) (cfg : CompilerConfig) (w : ExtWorld)
    (items : List ListItem)
    (hfree : ∀ it ∈ items, '<' ∉ (itemInner it cfg w).data) :
    ∀ x ∈ fullSegs tag cfg w items,
      x ∈ ["<" ++ tag ++ ">", "</" ++ tag ++ ">", "<li>", "</li>"] ∨
        '<' ∉ x.data := by
  intro x hx
  unfold fullSegs at hx
  simp only [List.mem_append, List.mem_cons, List.not_mem_nil, or_false,
    or_assoc] at hx
  rcases hx with rfl | hx | rfl | hx | rfl
  · left; simp
  · exact listSegs_segOk tag cfg w items 0 0 hfree x hx
  · left; simp
  · rw [List.mem_flatten] at hx
    obtain ⟨l, hl, hxl⟩ := hx
    rw [List.mem_replicate] at hl
    rw [hl.2] at hxl
    simp only [List.mem_cons, List.not_mem_nil, or_false] at hxl
    left
    rcases hxl with rfl | rfl <;> simp
  · left; simp

theorem renderList_eq_sjoin (is_ordered : Bool) (items : List ListItem)
    (cfg : CompilerConfig) (w : ExtWorld) :
    renderList is_ordered items cfg w =
      sjoin (fullSegs (if is_ordered then "ol" else "ul") cfg w items) := by
  unfold renderList fullSegs
  dsimp only
  rw [(listSegs_spec (if is_ordered then "ol" else "ul") cfg w items 0 0).1,
    (listSegs_spec (if is_ordered then "ol" else "ul") cfg w items 0 0).2]
  simp [sjoin_cons, sjoin_append, sjoin_flatten_pairs, sjoin,
    String.append_empty, String.append_assoc]

theorem fullSegs_balanced (tag : String) (cfg : CompilerConfig) (w : ExtWorld)
    (htag : tag = "ol" ∨ tag = "ul")
    (it0 : ListItem) (rest : List ListItem)
    (h0 : it0.level = 0) (hstep : stepOk it0.level rest)
    (hfree : ∀ it ∈ it0 :: rest, '<' ∉ (itemInner it cfg w).data) :
    countSeg ("<" ++ tag ++ ">") (fullSegs tag cfg w (it0 :: rest)) =
      countSeg ("</" ++ tag ++ ">") (fullSegs tag cfg w (it0 :: rest)) ∧
    countSeg "<li>" (fullSegs tag cfg w (it0 :: rest)) =
      countSeg "</li>" (fullSegs tag cfg w (it0 :: rest)) := by
  have d1 : ("<" ++ tag ++ ">" : String) ≠ "</" ++ tag ++ ">" := by
    rcases htag with rfl | rfl <;> decide
  have d2 : ("<" ++ tag ++ ">" : String) ≠ "<li>" := by
    rcases htag with rfl | rfl <;> decide
  have d3 : ("<" ++ tag ++ ">" : String) ≠ "</li>" := by
    rcases htag with rfl | rfl <;> decide
  have d4 : ("</" ++ tag ++ ">" : String) ≠ "<li>" := by
    rcases htag with rfl | rfl <;> decide
  have d5 : ("</" ++ tag ++ ">" : String) ≠ "</li>" := by
    rcases htag with rfl | rfl <;> decide
  have d6 : ("<li>" : String) ≠ "</li>" := by decide
  have hn0 : '<' ∉ (itemInner it0 cfg w).data := hfree it0 (by simp)
  have hn1 : itemInner it0 cfg w ≠ "<" ++ tag ++ ">" := by
    rcases htag with rfl | rfl <;>
      exact fun e => hn0 (by rw [e]; decide)
  have hn2 : itemInner it0 cfg w ≠ "</" ++ tag ++ ">" := by
    rcases htag with rfl | rfl <;>
      exact fun e => hn0 (by rw [e]; decide)
  have hn3 : itemInner it0 cfg w ≠ "<li>" := fun e => hn0 (by rw [e]; decide)
  have hn4 : itemInner it0 cfg w ≠ "</li>" := fun e => hn0 (by rw [e]; decide)
  have hstep' : stepOk 0 rest := by rw [h0] at hstep; exact hstep
  obtain ⟨i1, i2⟩ := listSegs_invariant tag cfg w htag rest 0 1 (by omega)
    hstep' (fun y hy => hfree y (by simp [hy]))
  have hstep0 : listSegs tag cfg w (it0 :: rest) 0 0 =
      ("<li>" :: itemInner it0 cfg w :: (listSegs tag cfg w rest 0 1).1,
       (listSegs tag cfg w rest 0 1).2) := by
    rw [listSegs, h0]
    simp
  unfold fullSegs
  constructor <;>
  · simp [hstep0, countSeg_append, countSeg_cons, countSeg_nil,
      countSeg_flatten_replicate,
      d1, d1.symm, d2, d2.symm, d3, d3.symm, d4, d4.symm, d5, d5.symm,
      d6, d6.symm, hn1, hn2, hn3, hn4]
    omega

theorem renderList_balanced (is_ordered : Bool) (items : List ListItem)
    (cfg : CompilerConfig) (w : ExtWorld)
    (hne : items ≠ []) (hlev : levelsOk items)
    (hfree : ∀ it ∈ items, '<' ∉ (itemInner it cfg w).data) :
    countOccStr (openTagTok is_ordered) (renderList is_ordered items cfg w) =
      countOccStr (closeTagTok is_ordered) (renderList is_ordered items cfg w) ∧
    countOccStr "<li>" (renderList is_ordered items cfg w) =
      countOccStr "</li>" (renderList is_ordered items cfg w) := by
  cases items with
  | nil => exact absurd rfl hne
  | cons it0 rest =>
    obtain ⟨h0, hstep⟩ := hlev
    have htag : (if is_ordered then "ol" else "ul") = "ol" ∨
        (if is_ordered then "ol" else "ul") = "ul" := by
      cases is_ordered <;> simp
    have hopen : openTagTok is_ordered =
        "<" ++ (if is_ordered then "ol" else "ul") ++ ">" := by
      cases is_ordered <;> decide
    have hclose : closeTagTok is_ordered =
        "</" ++ (if is_ordered then "ol" else "ul") ++ ">" := by
      cases is_ordered <;> decide
    have hsegOk := fullSegs_segOk (if is_ordered then "ol" else "ul") cfg w
      (it0 :: rest) hfree
    have hhead : ∀ t ∈ (["<" ++ (if is_ordered then "ol" else "ul") ++ ">",
        "</" ++ (if is_ordered then "ol" else "ul") ++ ">",
        "<li>", "</li>"] : List String),
        ∃ r, t.data = '<' :: r ∧ '<' ∉ r := by
      intro t ht
      simp only [List.mem_cons, List.not_mem_nil, or_false] at ht
      rcases ht with rfl | rfl | rfl | rfl
      · cases is_ordered
        · exact ⟨['u', 'l', '>'], by decide, by decide⟩
        · exact ⟨['o', 'l', '>'], by decide, by decide⟩
      · cases is_ordered
        · exact ⟨['/', 'u', 'l', '>'], by decide, by decide⟩
        · exact ⟨['/', 'o', 'l', '>'], by decide, by decide⟩
      · exact ⟨['l', 'i', '>'], by decide, by decide⟩
      · exact ⟨['/', 'l', 'i', '>'], by decide, by decide⟩
    have hpair : ∀ t1 ∈ (["<" ++ (if is_ordered then "ol" else "ul") ++ ">",
        "</" ++ (if is_ordered then "ol" else "ul") ++ ">",
        "<li>", "</li>"] : List String),
        ∀ t2 ∈ (["<" ++ (if is_ordered then "ol" else "ul") ++ ">",
        "</" ++ (if is_ordered then "ol" else "ul") ++ ">",
        "<li>", "</li>"] : List String), t1 ≠ t2 →
        t1.data.isPrefixOf t2.data = false := by
      cases is_ordered <;> decide
    have hcnt : ∀ p ∈ (["<" ++ (if is_ordered then "ol" else "ul") ++ ">",
        "</" ++ (if is_ordered then "ol" else "ul") ++ ">",
        "<li>", "</li>"] : List String),
        countOccStr p (renderList is_ordered (it0 :: rest) cfg w) =
          countSeg p
            (fullSegs (if is_ordered then "ol" else "ul") cfg w (it0 :: rest)) := by
      intro p hp
      rw [renderList_eq_sjoin]
      unfold countOccStr
      rw [sjoin_data]
      exact countOcc_segs p _ hp hhead hpair _ hsegOk
    obtain ⟨b1, b2⟩ := fullSegs_balanced (if is_ordered then "ol" else "ul")
      cfg w htag it0 rest h0 hstep hfree
    rw [hopen, hclose, hcnt _ (by simp), hcnt _ (by simp), hcnt _ (by simp),
      hcnt _ (by simp)]
    exact ⟨b1, b2⟩

/-! ## Claim theorems -/

/-- Claim C1, counterexample: the claim asserts that for every nonempty
special-free text t, parsing `*t*` yields t styled Bold; the program yields
t styled Plain for t = `a`, because the opening `*` with an empty buffer
returns early from `push_fmted_text` without toggling the style. -/
theorem claim1_cex :
    parse_text "*a*" = [Text.mk "a" TextFormat.Plain] ∧
    parse_text "*a*" ≠ [Text.mk "a" TextFormat.Bold] := by
  decide

/-- Claim C2, counterexample: the claim asserts link postprocessing is
applied exactly when the flushed buffer's own style is Plain.  Both
directions fail: an InlineMath buffer flushed at its closing `$` (target
style Plain) IS split into a Link run, and a Plain buffer flushed at an
opening `*` (target style Bold) is NOT split. -/
theorem claim2_cex :
    parse_text "x$[a](b)$" =
      [Text.mk "x" TextFormat.Plain, Text.mk "a" (TextFormat.Link "b")] ∧
    parse_text "x$[a](b)$" ≠
      [Text.mk "x" TextFormat.Plain, Text.mk "[a](b)" TextFormat.InlineMath] ∧
    parse_text "[a](b)*x*" =
      [Text.mk "[a](b)" TextFormat.Plain, Text.mk "x" TextFormat.Bold] ∧
    (∀ t ∈ parse_text "[a](b)*x*",
      t.fmt = TextFormat.Plain ∨ t.fmt = TextFormat.Bold) := by
  decide

/-- Claim C3, counterexample: the claim asserts balanced opening/closing
item tags for every flat level sequence, including jumps by more than one;
for levels `[0,2]` the output contains two `<li>` but three `</li>`. -/
theorem claim3_cex :
    countOccStr "<li>" (Block.render (Block.List false jumpItems) cfg0 w0) = 2 ∧
    countOccStr "</li>" (Block.render (Block.List false jumpItems) cfg0 w0) = 3 ∧
    Block.render (Block.List false jumpItems) cfg0 w0 =
      "<ul><li>a<ul><ul><li>b</li></ul></li></ul></li></ul>" := by
  decide

/-- C3 (amended): for a nonempty list block whose first item is at nesting
level 0, whose level sequence never increases by more than one between
consecutive items, and whose rendered item contents contain no `<`, the
HTML emitted by `Block.render` has equal counts of the opening and closing
list tags and of the opening and closing item tags; on the level shape
[0,1,1,0] the level-1 items sit inside exactly one nested list element.
(The original claim fails on upward jumps of more than one level: see the
counterexample.) -/
theorem claim3_amended (is_ordered : Bool) (items : List ListItem)
    (cfg : CompilerConfig) (w : ExtWorld)
    (hne : items ≠ []) (hlev : levelsOk items)
    (hfree : ∀ it ∈ items, ∀ t ∈ it.content,
      '<' ∉ (Text.render t cfg w).data) :
    (countOccStr (openTagTok is_ordered)
        (Block.render (Block.List is_ordered items) cfg w) =
      countOccStr (closeTagTok is_ordered)
        (Block.render (Block.List is_ordered items) cfg w) ∧
     countOccStr "<li>" (Block.render (Block.List is_ordered items) cfg w) =
      countOccStr "</li>" (Block.render (Block.List is_ordered items) cfg w)) ∧
    Block.render (Block.List false demoItems) cfg0 w0 =
      "<ul><li>a<ul><li>b</li><li>c</li></ul></li><li>d</li></ul>" := by
  constructor
  · have hfree2 : ∀ it ∈ items, '<' ∉ (itemInner it cfg w).data := by
      intro it hit
      unfold itemInner
      refine sjoin_ltfree _ ?_
      intro x hx
      rw [List.mem_map] at hx
      obtain ⟨t, ht, rfl⟩ := hx
      exact hfree it hit t ht
    exact renderList_balanced is_ordered items cfg w hne hlev hfree2
  · decide

/-- Witness for C3: the amended balance theorem applied to the concrete
unordered demo list with level sequence [0,1,1,0]. -/
theorem claim3_witness :
    demoItems ≠ [] ∧ levelsOk demoItems ∧
    (countOccStr (openTagTok false)
        (Block.render (Block.List false demoItems) cfg0 w0) =
      countOccStr (closeTagTok false)
        (Block.render (Block.List false demoItems) cfg0 w0) ∧
     countOccStr "<li>" (Block.render (Block.List false demoItems) cfg0 w0) =
      countOccStr "</li>" (Block.render (Block.List false demoItems) cfg0 w0)) :=
  ⟨by decide, by decide,
    (claim3_amended false demoItems cfg0 w0 (by decide) (by decide)
      (by decide)).1⟩


/-- Claim C4 (code bug): rendering a display Math block calls the math
pipeline with `is_display = false` (main.rs line 514), so the fragment is
wrapped `$x$` — the inline wrapping — although the enclosing span class
says `display-math`; the claimed `\[x\]` wrapping is what the pipeline's
dead `is_display = true` branch would produce.  The InlineMath half of the
claim (inline mode, `$...$`) is what the code does. -/
theorem claim4_display_math_inline :
    Block.render (Block.Math "x") cfg0 w0 =
      "<span class=\"display-math\">$x$</span>" ∧
    Block.render (Block.Math "x") cfg0 w0 ≠
      "<span class=\"display-math\">\\[x\\]</span>" ∧
    Text.render (Text.mk "x" TextFormat.InlineMath) cfg0 w0 =
      "<span class=\"inline-math\">$x$</span>" ∧
    render_math_to_svg "x" cfg0 true w0 = Except.ok "\\[x\\]" := by
  exact ⟨by decide, by decide, by decide, rfl⟩

/-- Claim C5 (code bug): segmenting an image line whose width clause is a
digit string exceeding u32 panics (the `unwrap` on the width parse, main.rs
line 204, modelled as `none`), contradicting the claim that block
segmentation never panics; a width that fits parses fine. -/
theorem claim5_width_panic :
    parse_blocks "![a](b){4294967296}" = none ∧
    parse_blocks "![a](b){50}" = some [Block.Image "a" "b" 50] := by
  decide

/-- Claim C6, counterexample: the claim asserts a backslash immediately
before the closing `$` of a literal span escapes it.  It does not: in
`a $b\$c$ d` the span ends at the first `$` after `b\`, the backslash is
kept verbatim in the span text, and the claimed runs (span text `b$c`) are
not produced. -/
theorem claim6_cex :
    parse_text "a $b\\$c$ d" =
      [Text.mk "a " TextFormat.Plain, Text.mk "b\\" TextFormat.InlineMath,
       Text.mk "c" TextFormat.Plain, Text.mk " d" TextFormat.InlineMath] ∧
    parse_text "a $b\\$c$ d" ≠
      [Text.mk "a " TextFormat.Plain, Text.mk "b$c" TextFormat.InlineMath,
       Text.mk " d" TextFormat.Plain] := by
  decide


/-- Claim C1 (amended): an unescaped `*` outside literal mode flushes the
buffer as a run styled with the current toggle and then toggles the style
between Plain and Bold ONLY when the accumulated buffer is nonempty; with an
empty buffer `push_fmted_text` returns early and the style is not toggled.
Hence for nonempty special-free s and t, `s*t*` parses to s Plain followed
by t Bold, while `*t*` (empty buffer at the opening `*`) parses to the
single Plain run t. -/
theorem claim1_amended (s t : String)
    (hs : s.data ≠ []) (hsf : specialFree s)
    (ht : t.data ≠ []) (htf : specialFree t) :
    parse_text (s ++ "*" ++ t ++ "*") =
      [Text.mk s TextFormat.Plain, Text.mk t TextFormat.Bold] ∧
    parse_text ("*" ++ t ++ "*") = [Text.mk t TextFormat.Plain] := by
  constructor
  · show parse_text_go (s ++ "*" ++ t ++ "*").data [] [] false TextFormat.Plain false = _
    have hd : (s ++ "*" ++ t ++ "*").data = s.data ++ '*' :: (t.data ++ ['*']) := by
      simp [String.data_append, show ("*" : String).data = ['*'] from rfl]
    rw [hd]
    rw [parse_text_go_accum s.data hsf]
    simp only [List.nil_append]
    rw [parse_text_go_star]
    rw [push_single_of_ne_plain s.data TextFormat.Plain TextFormat.Bold hs (by decide)]
    dsimp only
    rw [show toggle TextFormat.Plain TextFormat.Bold = TextFormat.Bold from rfl]
    simp only [List.nil_append]
    rw [parse_text_go_accum t.data htf]
    simp only [List.nil_append]
    rw [parse_text_go_star]
    rw [push_single_of_ne_plain t.data TextFormat.Bold TextFormat.Bold ht (by decide)]
    dsimp only
    rw [show toggle TextFormat.Bold TextFormat.Bold = TextFormat.Plain from rfl]
    rw [parse_text_go_nil]
    rw [push_empty]
    simp [string_mk_data]
  · show parse_text_go ("*" ++ t ++ "*").data [] [] false TextFormat.Plain false = _
    have hd : ("*" ++ t ++ "*").data = '*' :: (t.data ++ ['*']) := by
      simp [String.data_append, show ("*" : String).data = ['*'] from rfl]
    rw [hd]
    rw [parse_text_go_star]
    rw [push_empty]
    dsimp only
    simp only [List.nil_append]
    rw [parse_text_go_accum t.data htf]
    simp only [List.nil_append]
    rw [parse_text_go_star]
    rw [push_single_of_ne_plain t.data TextFormat.Plain TextFormat.Bold ht (by decide)]
    dsimp only
    rw [show toggle TextFormat.Plain TextFormat.Bold = TextFormat.Bold from rfl]
    rw [parse_text_go_nil]
    rw [push_empty]
    simp [string_mk_data]


/-- Witness for claim1_amended at s = "b", t = "a". -/
theorem claim1_witness :
    parse_text ("b" ++ "*" ++ "a" ++ "*") =
      [Text.mk "b" TextFormat.Plain, Text.mk "a" TextFormat.Bold] ∧
    parse_text ("*" ++ "a" ++ "*") = [Text.mk "a" TextFormat.Plain] :=
  claim1_amended "b" "a" (by decide) (by decide) (by decide) (by decide)

/-- Claim C2 (amended): link/footnote postprocessing is applied exactly when
the TARGET style of the flush (`fmt_new`) is Plain, not when the flushed
buffer's own style is Plain.  (1) Any nonempty buffer flushed toward a
non-Plain style is emitted as a single run in the current style with no
splitting — including Plain buffers at an opening delimiter.  (2) An
InlineMath buffer flushed at its closing `$` (target Plain) IS scanned: a
buffer that is exactly `[a](b)` becomes a single Link run.  (3) A Plain
buffer holding `[a](b)` flushed at an opening `*` (target Bold) is emitted
whole, unsplit. -/
theorem claim2_amended :
    (∀ (cs : List Char) (fc fn : TextFormat), cs ≠ [] →
      fn ≠ TextFormat.Plain →
      push_fmted_text cs fc fn = ([Text.mk ⟨cs⟩ fc], toggle fc fn, [])) ∧
    (∀ (x a b : String), x.data ≠ [] → specialFree x →
      a.data ≠ [] → specialFree a → (∀ c ∈ a.data, c ≠ ']') →
      b.data ≠ [] → specialFree b → (∀ c ∈ b.data, c ≠ ')') →
      parse_text (x ++ "$[" ++ a ++ "](" ++ b ++ ")$") =
        [Text.mk x TextFormat.Plain, Text.mk a (TextFormat.Link b)]) ∧
    (∀ (x a b : String), x.data ≠ [] → specialFree x →
      a.data ≠ [] → specialFree a → (∀ c ∈ a.data, c ≠ ']') →
      b.data ≠ [] → specialFree b → (∀ c ∈ b.data, c ≠ ')') →
      parse_text ("[" ++ a ++ "](" ++ b ++ ")*" ++ x ++ "*") =
        [Text.mk ("[" ++ a ++ "](" ++ b ++ ")") TextFormat.Plain,
         Text.mk x TextFormat.Bold]) := by
  refine ⟨fun cs fc fn h1 h2 => push_single_of_ne_plain cs fc fn h1 h2, ?_, ?_⟩
  · intro x a b hx hxf ha haf ha2 hb hbf hb2
    show parse_text_go _ [] [] false TextFormat.Plain false = _
    have hd : (x ++ "$[" ++ a ++ "](" ++ b ++ ")$").data =
        x.data ++ '$' ::
          (('[' :: (a.data ++ ']' :: '(' :: (b.data ++ [')']))) ++ ['$']) := by
      simp [String.data_append, show ("$[" : String).data = ['$', '['] from rfl,
        show ("](" : String).data = [']', '('] from rfl,
        show (")$" : String).data = [')', '$'] from rfl]
    rw [hd]
    rw [parse_text_go_accum x.data hxf]
    simp only [List.nil_append]
    rw [parse_text_go_dollar_open]
    rw [push_single_of_ne_plain x.data TextFormat.Plain TextFormat.InlineMath hx
      (by decide)]
    dsimp only
    rw [show toggle TextFormat.Plain TextFormat.InlineMath =
      TextFormat.InlineMath from rfl]
    simp only [List.nil_append]
    have hB : ∀ c ∈ ('[' :: (a.data ++ ']' :: '(' :: (b.data ++ [')']))),
        c ≠ '$' := by
      intro c hc e
      subst e
      have ha' : ('$' : Char) ∉ a.data := specialFree_app a haf '$' (by decide)
      have hb' : ('$' : Char) ∉ b.data := specialFree_app b hbf '$' (by decide)
      simp [ha', hb'] at hc
    rw [parse_text_go_accum_lit _ hB]
    simp only [List.nil_append]
    rw [parse_text_go_dollar_close]
    rw [push_link_exact a b TextFormat.InlineMath ha ha2 hb hb2]
    dsimp only
    rw [show toggle TextFormat.InlineMath TextFormat.Plain =
      TextFormat.Plain from rfl]
    rw [parse_text_go_nil, push_empty]
    simp [string_mk_data]
  · intro x a b hx hxf ha haf ha2 hb hbf hb2
    show parse_text_go _ [] [] false TextFormat.Plain false = _
    have hd : ("[" ++ a ++ "](" ++ b ++ ")*" ++ x ++ "*").data =
        ('[' :: (a.data ++ ']' :: '(' :: (b.data ++ [')']))) ++
          '*' :: (x.data ++ ['*']) := by
      simp [String.data_append, show ("[" : String).data = ['['] from rfl,
        show ("](" : String).data = [']', '('] from rfl,
        show (")*" : String).data = [')', '*'] from rfl,
        show ("*" : String).data = ['*'] from rfl]
    rw [hd]
    have hBs : ∀ c ∈ ('[' :: (a.data ++ ']' :: '(' :: (b.data ++ [')']))),
        c ∉ specials := by
      intro c hc
      simp only [List.mem_cons, List.mem_append, List.mem_singleton,
        List.not_mem_nil, or_false] at hc
      rcases hc with rfl | hc | rfl | rfl | hc | rfl
      · decide
      · exact haf c hc
      · decide
      · decide
      · exact hbf c hc
      · decide
    rw [parse_text_go_accum _ hBs]
    simp only [List.nil_append]
    rw [parse_text_go_star]
    rw [push_single_of_ne_plain _ TextFormat.Plain TextFormat.Bold (by simp)
      (by decide)]
    dsimp only
    rw [show toggle TextFormat.Plain TextFormat.Bold = TextFormat.Bold from rfl]
    simp only [List.nil_append]
    rw [parse_text_go_accum x.data hxf]
    simp only [List.nil_append]
    rw [parse_text_go_star]
    rw [push_single_of_ne_plain x.data TextFormat.Bold TextFormat.Bold hx
      (by decide)]
    dsimp only
    rw [show toggle TextFormat.Bold TextFormat.Bold = TextFormat.Plain from rfl]
    rw [parse_text_go_nil, push_empty]
    have hL : (⟨'[' :: (a.data ++ ']' :: '(' :: (b.data ++ [')']))⟩ : String) =
        "[" ++ a ++ "](" ++ b ++ ")" := by
      apply string_ext
      simp [String.data_append, show ("[" : String).data = ['['] from rfl,
        show ("](" : String).data = [']', '('] from rfl,
        show (")" : String).data = [')'] from rfl]
    simp [string_mk_data, hL]


/-- Witness for claim2_amended at concrete buffers and texts. -/
theorem claim2_witness :
    push_fmted_text ['y'] TextFormat.Plain TextFormat.Bold =
      ([Text.mk "y" TextFormat.Plain],
        toggle TextFormat.Plain TextFormat.Bold, []) ∧
    parse_text ("x" ++ "$[" ++ "a" ++ "](" ++ "b" ++ ")$") =
      [Text.mk "x" TextFormat.Plain, Text.mk "a" (TextFormat.Link "b")] ∧
    parse_text ("[" ++ "a" ++ "](" ++ "b" ++ ")*" ++ "x" ++ "*") =
      [Text.mk ("[" ++ "a" ++ "](" ++ "b" ++ ")") TextFormat.Plain,
       Text.mk "x" TextFormat.Bold] :=
  ⟨claim2_amended.1 ['y'] TextFormat.Plain TextFormat.Bold (by decide) (by decide),
   claim2_amended.2.1 "x" "a" "b" (by decide) (by decide) (by decide) (by decide)
     (by decide) (by decide) (by decide) (by decide),
   claim2_amended.2.2 "x" "a" "b" (by decide) (by decide) (by decide) (by decide)
     (by decide) (by decide) (by decide) (by decide)⟩

/-- Claim C6 (amended): inside an InlineMath literal span the escape flag is
never set, so a backslash is appended verbatim like any other character and
does NOT escape the closing delimiter: the span ends at the first `$`
(t may end in a backslash), the backslash staying in the span's text, and
parsing continues after the span in the initial state. -/
theorem claim6_amended (s t r : String)
    (hs : s.data ≠ []) (hsf : specialFree s)
    (ht : t.data ≠ []) (htd : ∀ c ∈ t.data, c ≠ '$') (htb : '[' ∉ t.data) :
    parse_text (s ++ "$" ++ t ++ "$" ++ r) =
      Text.mk s TextFormat.Plain :: Text.mk t TextFormat.InlineMath ::
        parse_text r := by
  show parse_text_go _ [] [] false TextFormat.Plain false = _
  have hd : (s ++ "$" ++ t ++ "$" ++ r).data =
      s.data ++ '$' :: (t.data ++ '$' :: r.data) := by
    simp [String.data_append, show ("$" : String).data = ['$'] from rfl]
  rw [hd]
  rw [parse_text_go_accum s.data hsf]
  simp only [List.nil_append]
  rw [parse_text_go_dollar_open]
  rw [push_single_of_ne_plain s.data TextFormat.Plain TextFormat.InlineMath hs
    (by decide)]
  dsimp only
  rw [show toggle TextFormat.Plain TextFormat.InlineMath =
    TextFormat.InlineMath from rfl]
  simp only [List.nil_append]
  rw [show (t.data ++ '$' :: r.data : List Char) = t.data ++ ('$' :: r.data)
    from rfl]
  rw [parse_text_go_accum_lit t.data htd]
  simp only [List.nil_append]
  rw [parse_text_go_dollar_close]
  rw [push_single_of_no_lbracket t.data TextFormat.InlineMath ht htb]
  dsimp only
  rw [show toggle TextFormat.InlineMath TextFormat.Plain =
    TextFormat.Plain from rfl]
  rw [parse_text_go_texts2]
  simp [string_mk_data, parse_text]


/-- Witness for claim6_amended at the counterexample's own span: the span
text is `b\` (ending in the backslash) and the `$` right after it closes
the span. -/
theorem claim6_witness :
    parse_text ("a " ++ "$" ++ "b\\" ++ "$" ++ " d") =
      Text.mk "a " TextFormat.Plain :: Text.mk "b\\" TextFormat.InlineMath ::
        parse_text " d" :=
  claim6_amended "a " "b\\" " d" (by decide) (by decide) (by decide) (by decide)
    (by decide)


/-- Claim C7: if the external typesetting command exits non-zero, the math
pipeline returns a failure carrying the command's captured standard output
as diagnostic text; a missing DVI artifact yields a missing-artifact
failure; the affected display math block and inline-math run render as an
inline error marker containing the diagnostic; and rendering of a document
containing the failing block decomposes into the independent renderings of
the other blocks (no abort). -/
theorem claim7_typeset_failure (cfg : CompilerConfig) (w : ExtWorld)
    (s s' : String) (pre post : List Block)
    (hfail : w.latexOk (math_latex_content s cfg false) = false)
    (hok : w.latexOk (math_latex_content s' cfg false) = true)
    (hdvi : w.dviOk (math_latex_content s' cfg false) = false) :
    render_math_to_svg s cfg false w =
      Except.error
        ("LaTeX failed: " ++ w.latexStdout (math_latex_content s cfg false)) ∧
    Block.render (Block.Math s) cfg w =
      "<span class=\"display-math\">" ++
        ("<code class='latex-error'>" ++
          ("LaTeX failed: " ++ w.latexStdout (math_latex_content s cfg false)) ++
          "</code>") ++ "</span>" ∧
    Text.render (Text.mk s TextFormat.InlineMath) cfg w =
      "<span class=\"inline-math\">" ++
        ("<code class='latex-error'>" ++
          ("LaTeX failed: " ++ w.latexStdout (math_latex_content s cfg false)) ++
          "</code>") ++ "</span>" ∧
    render_math_to_svg s' cfg false w =
      Except.error ("DVI file not found at " ++ w.dviPathStr) ∧
    render_document (pre ++ Block.Math s :: post) cfg w =
      render_document pre cfg w ++ Block.render (Block.Math s) cfg w ++
        render_document post cfg w := by
  have h1 : render_math_to_svg s cfg false w =
      Except.error
        ("LaTeX failed: " ++ w.latexStdout (math_latex_content s cfg false)) := by
    unfold render_math_to_svg
    dsimp only
    rw [hfail]
    rfl
  refine ⟨h1, ?_, ?_, ?_, ?_⟩
  · unfold Block.render
    dsimp only
    rw [h1]
  · unfold Text.render
    dsimp only
    rw [h1]
  · unfold render_math_to_svg
    dsimp only
    rw [hok, hdvi]
    rfl
  · rw [render_document_append]
    rw [show render_document (Block.Math s :: post) cfg w =
      Block.render (Block.Math s) cfg w ++ render_document post cfg w from rfl]
    rw [String.append_assoc]

/-- Witness for claim7_typeset_failure: in the world `wsel`, typesetting
`$x$` fails with captured output `boom` and typesetting `$y$` succeeds but
leaves no DVI artifact. -/
theorem claim7_witness :
    render_math_to_svg "x" cfg0 false wsel =
      Except.error
        ("LaTeX failed: " ++ wsel.latexStdout (math_latex_content "x" cfg0 false)) ∧
    render_math_to_svg "y" cfg0 false wsel =
      Except.error ("DVI file not found at " ++ wsel.dviPathStr) := by
  have h := claim7_typeset_failure cfg0 wsel "x" "y" [] [] (by decide) (by decide)
    (by decide)
  exact ⟨h.1, h.2.2.2.1⟩

/-- Claim C8: once the first item fixes the marker kind, the segmenter
keeps consuming lines as long as EITHER item pattern matches (mixed marker
kinds permitted), stopping at the first line matching neither; the List
block's is_ordered flag equals the first item's kind and the other-kind
items are included with their own content. -/
theorem claim8_mixed_lists :
    (∀ (fuel : Nat) (l0 t : String) (li0 : ListItem)
       (ms : List (String × ListItem)) (rest : List String)
       (blocks : List Block) (buf : String),
       listDispatchFree l0 → captures_ol_li l0 = some li0 →
       (∀ p ∈ ms, captures_ol_li p.1 = some p.2 ∨
         (captures_ol_li p.1 = none ∧ captures_ul_li p.1 = some p.2)) →
       captures_ol_li t = none → captures_ul_li t = none →
       parseBlocksGo (fuel + 1) (l0 :: (ms.map Prod.fst ++ t :: rest)) blocks
           buf true =
         parseBlocksGo fuel rest
           (blocks ++ [Block.List true (li0 :: ms.map Prod.snd)]) buf false) ∧
    (∀ (fuel : Nat) (l0 t : String) (li0 : ListItem)
       (ms : List (String × ListItem)) (rest : List String)
       (blocks : List Block) (buf : String),
       listDispatchFree l0 → captures_ol_li l0 = none →
       captures_ul_li l0 = some li0 →
       (∀ p ∈ ms, captures_ul_li p.1 = some p.2 ∨
         (captures_ul_li p.1 = none ∧ captures_ol_li p.1 = some p.2)) →
       captures_ol_li t = none → captures_ul_li t = none →
       parseBlocksGo (fuel + 1) (l0 :: (ms.map Prod.fst ++ t :: rest)) blocks
           buf true =
         parseBlocksGo fuel rest
           (blocks ++ [Block.List false (li0 :: ms.map Prod.snd)]) buf false) := by
  constructor
  · intro fuel l0 t li0 ms rest blocks buf hd h0 hm ht1 ht2
    rw [parseBlocksGo_list_ol fuel l0 li0 _ blocks buf hd h0]
    rw [scanOlItems_spec ms t rest hm ht1 ht2]
  · intro fuel l0 t li0 ms rest blocks buf hd h0 h0' hm ht1 ht2
    rw [parseBlocksGo_list_ul fuel l0 li0 _ blocks buf hd h0 h0']
    rw [scanUlItems_spec ms t rest hm ht1 ht2]

/-- Witness for claim8_mixed_lists: an ordered first item `1. a` followed by
an unordered `- b` and an ordered `2. c`, terminated by `stop`; the block is
ordered and contains all three items. -/
theorem claim8_witness :
    parseBlocksGo 4 ["1. a", "- b", "2. c", "stop", "next"] [] "" true =
      parseBlocksGo 3 ["next"]
        [Block.List true
          [ListItem.mk 0 [Text.mk "a" TextFormat.Plain],
           ListItem.mk 0 [Text.mk "b" TextFormat.Plain],
           ListItem.mk 0 [Text.mk "c" TextFormat.Plain]]] "" false := by
  have h := claim8_mixed_lists.1 3 "1. a" "stop"
    (ListItem.mk 0 [Text.mk "a" TextFormat.Plain])
    [("- b", ListItem.mk 0 [Text.mk "b" TextFormat.Plain]),
     ("2. c", ListItem.mk 0 [Text.mk "c" TextFormat.Plain])]
    ["next"] [] "" (by decide) (by decide) (by decide) (by decide) (by decide)
  exact h

/-- Claim C9: a document whose first line falls through every
block-dispatch pattern and whose lines are all non-blank segments into
exactly one Paragraph block whose raw text is all the lines joined with
separating spaces (each line followed by one space; header-looking lines
mid-paragraph are not treated as headers). -/
theorem claim9_single_paragraph (l0 : String) (ls : List String)
    (h0 : paragraphFallthrough l0)
    (hb : ∀ l ∈ ls, rustBlank l = false) :
    parseBlocksLines (l0 :: ls) =
      some [Block.Paragraph [Text.mk (joinSp "" (l0 :: ls)) TextFormat.Raw]] := by
  obtain ⟨⟨hbl, h1, h2, h3, h4, h5, h6, h7, h8⟩, hol, hul⟩ := h0
  show parseBlocksGo ((l0 :: ls).length + 1) (l0 :: ls) [] "" true = _
  have hlen : (l0 :: ls).length + 1 = (ls.length + 1) + 1 := by simp
  rw [hlen]
  rw [parseBlocksGo]
  unfold parseBlocksStep
  rw [if_neg (by simp [hbl])]
  rw [if_neg (by simp)]
  rw [if_neg (by simp [h1]), if_neg (by simp [h2]), if_neg (by simp [h3]),
    if_neg (by simp [h4]), if_neg (by simp [h5]), if_neg (by simp [h6]),
    if_neg (by simp [h7]), if_neg (by simp [h8])]
  rw [show listBranch l0 ls = none from by simp [listBranch, hol, hul]]
  dsimp only
  rw [parseBlocksGo_para ls (ls.length + 1) [] ("" ++ l0 ++ " ")
    (by omega) hb (append_space_ne_empty _)]
  simp [joinSp]

/-- Witness for claim9_single_paragraph: a two-line document whose second
line looks like a header. -/
theorem claim9_witness :
    parseBlocksLines ["abc", "# x"] =
      some [Block.Paragraph [Text.mk "abc # x " TextFormat.Raw]] := by
  have h := claim9_single_paragraph "abc" ["# x"] (by decide) (by decide)
  exact h

/-- Claim C10: the non-matching line that terminates a list's item run is
consumed by the list scanner and silently discarded: the segmenter's whole
output is independent of that line's content (for both list kinds), so it
appears in no block, neither as a new block nor as paragraph text. -/
theorem claim10_list_terminator :
    (∀ (fuel : Nat) (l0 t t' : String) (li0 : ListItem)
       (ms : List (String × ListItem)) (rest : List String)
       (blocks : List Block) (buf : String),
       listDispatchFree l0 → captures_ol_li l0 = some li0 →
       (∀ p ∈ ms, captures_ol_li p.1 = some p.2 ∨
         (captures_ol_li p.1 = none ∧ captures_ul_li p.1 = some p.2)) →
       captures_ol_li t = none → captures_ul_li t = none →
       captures_ol_li t' = none → captures_ul_li t' = none →
       parseBlocksGo (fuel + 1) (l0 :: (ms.map Prod.fst ++ t :: rest)) blocks
           buf true =
         parseBlocksGo (fuel + 1) (l0 :: (ms.map Prod.fst ++ t' :: rest))
           blocks buf true) ∧
    (∀ (fuel : Nat) (l0 t t' : String) (li0 : ListItem)
       (ms : List (String × ListItem)) (rest : List String)
       (blocks : List Block) (buf : String),
       listDispatchFree l0 → captures_ol_li l0 = none →
       captures_ul_li l0 = some li0 →
       (∀ p ∈ ms, captures_ul_li p.1 = some p.2 ∨
         (captures_ul_li p.1 = none ∧ captures_ol_li p.1 = some p.2)) →
       captures_ol_li t = none → captures_ul_li t = none →
       captures_ol_li t' = none → captures_ul_li t' = none →
       parseBlocksGo (fuel + 1) (l0 :: (ms.map Prod.fst ++ t :: rest)) blocks
           buf true =
         parseBlocksGo (fuel + 1) (l0 :: (ms.map Prod.fst ++ t' :: rest))
           blocks buf true) := by
  constructor
  · intro fuel l0 t t' li0 ms rest blocks buf hd h0 hm ht1 ht2 ht1' ht2'
    rw [parseBlocksGo_list_ol fuel l0 li0 _ blocks buf hd h0,
      scanOlItems_spec ms t rest hm ht1 ht2]
    rw [parseBlocksGo_list_ol fuel l0 li0 _ blocks buf hd h0,
      scanOlItems_spec ms t' rest hm ht1' ht2']
  · intro fuel l0 t t' li0 ms rest blocks buf hd h0 h0' hm ht1 ht2 ht1' ht2'
    rw [parseBlocksGo_list_ul fuel l0 li0 _ blocks buf hd h0 h0',
      scanUlItems_spec ms t rest hm ht1 ht2]
    rw [parseBlocksGo_list_ul fuel l0 li0 _ blocks buf hd h0 h0',
      scanUlItems_spec ms t' rest hm ht1' ht2']

/-- Witness for claim10_list_terminator: replacing the discarded terminator
`stop` by `xyz!` leaves the segmenter's output unchanged. -/
theorem claim10_witness :
    parseBlocksGo 4 ["1. a", "- b", "2. c", "stop", "next"] [] "" true =
      parseBlocksGo 4 ["1. a", "- b", "2. c", "xyz!", "next"] [] "" true := by
  have h := claim10_list_terminator.1 3 "1. a" "stop" "xyz!"
    (ListItem.mk 0 [Text.mk "a" TextFormat.Plain])
    [("- b", ListItem.mk 0 [Text.mk "b" TextFormat.Plain]),
     ("2. c", ListItem.mk 0 [Text.mk "c" TextFormat.Plain])]
    ["next"] [] "" (by decide) (by decide) (by decide) (by decide) (by decide)
    (by decide) (by decide)
  exact h

end Minissg
